import Mathlib

/-!
Verification of the pydsm distributional-semantic-model builder
(`pydsm/model.py`) against its natural-language specification.

The Python source is shallowly embedded: dictionaries become association
lists (insertion ordered, first-match lookup, like Python dicts),
`defaultdict(int)` becomes lookup-with-default-0, numpy vectors become
`List Int`, generators become eagerly computed lists, and exceptions
become `Except PyErr`.  The numpy global random generator is modelled as
explicitly threaded abstract state: `mk : Nat → S` is `np.random.seed`
and `ch : S → Nat → Nat → List Nat × S` is
`np.random.choice(np.arange(dim), size=(1, n))[0]` together with the
post-draw generator state.  Console printing and the `timer()` context
manager are side effects with no bearing on the data and are dropped.
-/

set_option maxHeartbeats 1000000

namespace Pydsm

/-- One position of a tokenized sentence: a single word (a Python `str`)
or an n-gram group (a Python `list` of words). -/
inductive Tok where
  | single (w : String)
  | group (g : List String)
deriving DecidableEq, Repr

/-- The word tokens held at one sentence position.  This is the
`if isinstance(focuses, str): focuses = [focuses]` normalization of
`DSM._vocabularize` (model.py lines 152-153). -/
def tokensOf : Tok → List String
  | Tok.single w => [w]
  | Tok.group g => g

/-- `_flatten` (model.py lines 24-32): expands n-gram groups in place,
preserving order. -/
def flatten : List Tok → List String
  | [] => []
  | Tok.single w :: rest => w :: flatten rest
  | Tok.group g :: rest => g ++ flatten rest

/-- Python exceptions the modelled code can raise. -/
inductive PyErr where
  | typeError (msg : String)
  | keyError (key : String)
  | attributeError (name : String)
deriving DecidableEq, Repr

/-- First-match lookup in an association list (Python `d[k]` /
`k in d`, which are equivalent to this on duplicate-free lists, the
only ones a Python dict can denote). -/
def lookupA {β : Type} : List (String × β) → String → Option β
  | [], _ => none
  | (k, v) :: rest, w => if k = w then some v else lookupA rest w

/-- Python `k in d`. -/
def keyMem {β : Type} (d : List (String × β)) (k : String) : Bool :=
  (lookupA d k).isSome

/-- A corpus frequency dictionary: `defaultdict(int)` from token to count. -/
abbrev Vocab := List (String × Nat)

/-- Frequency of `w` in the vocabulary (`defaultdict` read without insertion). -/
def freqOf (v : Vocab) (w : String) : Nat :=
  (lookupA v w).getD 0

/-- `self.vocabulary[focus] += 1` on a `defaultdict(int)`: bump the count,
inserting the key at the end (dict insertion order) if absent. -/
def bump : Vocab → String → Vocab
  | [], w => [(w, 1)]
  | (k, c) :: rest, w =>
    if k = w then (k, c + 1) :: rest else (k, c) :: bump rest w

/-- The nested co-occurrence dictionary `focus -> context -> count`. -/
abbrev Colloc := List (String × List (String × Nat))

/-- `colfreqs[focus][context] += 1` on a
`defaultdict(lambda: defaultdict(int))` (model.py line 303). -/
def bumpOuter : Colloc → String → String → Colloc
  | [], f, c => [(f, bump [] c)]
  | (k, inner) :: rest, f, c =>
    if k = f then (k, bump inner c) :: rest
    else (k, inner) :: bumpOuter rest f c

/-- `CooccurrenceDSM._build` (model.py lines 293-305): accumulate the
nested co-occurrence counts over the (focus, contexts) pairs. -/
def CooccurrenceDSM_build (text : List (String × List String)) : Colloc :=
  text.foldl (fun d p => p.2.foldl (fun d c => bumpOuter d p.1 c) d) []

/-- The count stored for (focus, context), reading absent keys as zero
(both dictionary levels are `defaultdict(int)`-backed). -/
def coocCount (d : Colloc) (f c : String) : Nat :=
  (lookupA ((lookupA d f).getD []) c).getD 0

/-- Nested lookup returning `none` when either key is absent. -/
def lookup2 (d : Colloc) (f c : String) : Option Nat :=
  (lookupA d f).bind (fun inner => lookupA inner c)

/-- The model's configuration dictionary.  Only the keys the source ever
reads are modelled; a `none` field is an absent key. -/
structure Config where
  ordered : Option Bool
  directed : Option Bool
  lower_threshold : Option Nat
  higher_threshold : Option Nat
  dimensionality : Option Nat
  num_indices : Option Nat
deriving DecidableEq, Repr

/-- The empty configuration dictionary. -/
def Config.empty : Config := ⟨none, none, none, none, none, none⟩

/-- `context_left` before any filtering or tagging (model.py lines
158, 161): `left = i - window_size[0] if i - window_size[0] > 0 else 0`
followed by `_flatten(sentence[left:i])`.  The arithmetic is over Python
ints, hence the explicit `Int` computation. -/
def rawLeft (s : List Tok) (i L : Nat) : List String :=
  let left : Int := if (i : Int) - (L : Int) > 0 then (i : Int) - (L : Int) else 0
  flatten ((s.drop left.toNat).take (i - left.toNat))

/-- `context_right` before any filtering or tagging (model.py lines
159, 162): `right = i + window_size[1] + 1 if i + window_size[1] + 1
<= len(sentence) else len(sentence)` followed by
`_flatten(sentence[i + 1:right])`. -/
def rawRight (s : List Tok) (i R : Nat) : List String :=
  let right : Nat := if i + R + 1 ≤ s.length then i + R + 1 else s.length
  flatten ((s.drop (i + 1)).take (right - (i + 1)))

/-- The context span exactly as the specification words it: the tokens at
sentence positions in `[max(0, i - L), i)` followed by the tokens at
positions in `(i, min(n, i + R + 1))`, each n-gram group flattened in
place. -/
def specContext (s : List Tok) (i L R : Nat) : List String :=
  (((s.enum).filter
      (fun p => decide (max 0 ((i : Int) - (L : Int)) ≤ (p.1 : Int) ∧ (p.1 : Int) < (i : Int)))).map
      (fun p => tokensOf p.2)).flatten
  ++ (((s.enum).filter
      (fun p => decide ((i : Int) < (p.1 : Int) ∧
        (p.1 : Int) < min ((s.length : Int)) ((i : Int) + (R : Int) + 1)))).map
      (fun p => tokensOf p.2)).flatten

/-- `[w for w in ctx if vocabulary[w] > lower_threshold]` (model.py lines
165-166).  Reading `vocabulary[w]` on a `defaultdict(int)` inserts the
key with value 0 when it is absent, so the vocabulary is threaded
through and grown. -/
def filterMut (lt : Nat) : Vocab → List String → (List String × Vocab)
  | v, [] => ([], v)
  | v, w :: ws =>
    let cv : Nat × Vocab :=
      match lookupA v w with
      | some c => (c, v)
      | none => (0, v ++ [(w, 0)])
    let rest := filterMut lt cv.2 ws
    (if cv.1 > lt then w :: rest.1 else rest.1, rest.2)

/-- The body of `DSM._vocabularize` for one focus token at sentence
position `i` (model.py lines 154-174): bump the vocabulary, compute the
raw window contexts, read `config['lower_threshold']` by direct key
access (a `KeyError` when absent), optionally frequency-filter, then
apply the `directed` and `ordered` tags, and yield the pair. -/
def vocabFocus (cfg : Config) (L R : Nat) (s : List Tok) (i : Nat) (v : Vocab)
    (focus : String) : Except PyErr (Vocab × (String × List String)) :=
  let v := bump v focus
  -- lines 156-157: `if vocabulary[focus] < config.get('lower_threshold', 0): pass`
  -- reads only via .get and does nothing in either branch.
  let cl := rawLeft s i L
  let cr := rawRight s i R
  match cfg.lower_threshold with
  | none => Except.error (PyErr.keyError ("lower_threshold"))
  | some lt =>
    let clv := if lt ≠ 0 then filterMut lt v cl else (cl, v)
    let crv := if lt ≠ 0 then filterMut lt clv.2 cr else (cr, clv.2)
    let cl := clv.1
    let cr := crv.1
    let v := crv.2
    let cl := if cfg.directed.getD false then cl.map (fun w => w ++ "_left") else cl
    let cr := if cfg.directed.getD false then cr.map (fun w => w ++ "_right") else cr
    let cl := if cfg.ordered.getD false
      then cl.enum.map (fun p => p.2 ++ "_" ++ toString (p.1 + 1)) else cl
    let cr := if cfg.ordered.getD false
      then cr.enum.map (fun p => p.2 ++ "_" ++ toString (p.1 + 1)) else cr
    Except.ok (v, (focus, cl ++ cr))

/-- `for focus in focuses: ...` — process the token group at one
sentence position, collecting the yielded pairs. -/
def vocabGroup (cfg : Config) (L R : Nat) (s : List Tok) (i : Nat) :
    Vocab → List String → Except PyErr (Vocab × List (String × List String))
  | v, [] => Except.ok (v, [])
  | v, focus :: rest => do
    let r ← vocabFocus cfg L R s i v focus
    let rs ← vocabGroup cfg L R s i r.1 rest
    Except.ok (rs.1, r.2 :: rs.2)

/-- `for i, focuses in enumerate(sentence)` — walk a sentence from
position `i`, the remaining suffix given explicitly. -/
def vocabSentenceAux (cfg : Config) (L R : Nat) (s : List Tok) :
    Vocab → Nat → List Tok → Except PyErr (Vocab × List (String × List String))
  | v, _, [] => Except.ok (v, [])
  | v, i, e :: rest => do
    let r ← vocabGroup cfg L R s i v (tokensOf e)
    let rs ← vocabSentenceAux cfg L R s r.1 (i + 1) rest
    Except.ok (rs.1, r.2 ++ rs.2)

/-- Context extraction over one sentence. -/
def vocabularizeSentence (cfg : Config) (L R : Nat) (v : Vocab) (s : List Tok) :
    Except PyErr (Vocab × List (String × List String)) :=
  vocabSentenceAux cfg L R s v 0 s

/-- `DSM._vocabularize` (model.py lines 139-174) over a pre-tokenized
corpus, computed eagerly: the final vocabulary together with every
yielded (focus, contexts) pair, or the first exception raised while the
generator is consumed.  The per-1000-sentences progress print is a pure
side effect and is dropped. -/
def vocabularize (cfg : Config) (L R : Nat) :
    Vocab → List (List Tok) → Except PyErr (Vocab × List (String × List String))
  | v, [] => Except.ok (v, [])
  | v, s :: rest => do
    let r ← vocabularizeSentence cfg L R v s
    let rs ← vocabularize cfg L R r.1 rest
    Except.ok (rs.1, r.2 ++ rs.2)

/-- `word_to_col[context][:word_to_col[context].size // 2]`
(model.py line 372): the positive half of an index vector is its first
`size // 2` entries. -/
def posHalf (iv : List Nat) : List Nat :=
  iv.take (iv.length / 2)

/-- `word_to_col[context][word_to_col[context].size // 2:]`
(model.py line 373): the negative half of an index vector is the rest. -/
def negHalf (iv : List Nat) : List Nat :=
  iv.drop (iv.length / 2)

/-- `np.add.at(vec, idxs, x)`: add `x` at every listed position, repeats
accumulating.  (`List.set` ignores out-of-range positions; the build
only ever uses positions drawn from `np.arange(dimensionality)`.) -/
def addAt (v : List Int) (idxs : List Nat) (x : Int) : List Int :=
  idxs.foldl (fun v j => v.set j (v.getD j 0 + x)) v

/-- The net effect on a focus accumulator vector of processing one
context-token occurrence whose cached index vector is `iv`
(model.py lines 372-378): `+1` at every positive-half position and `-1`
at every negative-half position. -/
def applyIndexVector (v : List Int) (iv : List Nat) : List Int :=
  addAt (addAt v (posHalf iv) 1) (negHalf iv) (-1)

/-- The state of the inner `for context in contexts` loop of
`RandomIndexing._build`: the `word_to_col` cache, the global numpy
generator state, and the accumulated `pos_context_indices` /
`neg_context_indices` lists. -/
structure CtxAcc (S : Type) where
  cache : List (String × List Nat)
  rng : S
  pos : List (List Nat)
  neg : List (List Nat)

/-- One iteration of the inner context loop (model.py lines 364-373):
draw and cache a fresh seeded index vector for an unseen context token,
then record its positive and negative halves. -/
def riContextStep {S : Type} (mk : Nat → S) (ch : S → Nat → Nat → List Nat × S)
    (hashFn : String → Nat) (dim n : Nat) (acc : CtxAcc S) (context : String) :
    CtxAcc S :=
  match lookupA acc.cache context with
  | some iv => ⟨acc.cache, acc.rng, acc.pos ++ [posHalf iv], acc.neg ++ [negHalf iv]⟩
  | none =>
    let seed := hashFn context % 4294967295
    let drawn := ch (mk seed) dim n
    ⟨acc.cache ++ [(context, drawn.1)], drawn.2,
      acc.pos ++ [posHalf drawn.1], acc.neg ++ [negHalf drawn.1]⟩

/-- The state of the outer `for focus, contexts in text` loop of
`RandomIndexing._build`. -/
structure RIAcc (S : Type) where
  colfreqs : List (String × List Int)
  cache : List (String × List Nat)
  rng : S

/-- `d[k] = v` on a dict: overwrite the (unique) existing entry in
place, insert at the end if absent. -/
def setA {β : Type} : List (String × β) → String → β → List (String × β)
  | [], k, v => [(k, v)]
  | (a, b) :: rest, k, v =>
    if a = k then (a, v) :: rest else (a, b) :: setA rest k v

/-- One iteration of the outer loop of `RandomIndexing._build`
(model.py lines 358-378): zero-initialize the focus row if new, walk
the contexts, then batch-apply the `+1`s over the stacked positive
indices and the `-1`s over the stacked negative indices
(`np.hstack` of an empty list is an error, hence the emptiness guards
in the source; `addAt` with no indices is the identity either way). -/
def riPairStep {S : Type} (mk : Nat → S) (ch : S → Nat → Nat → List Nat × S)
    (hashFn : String → Nat) (dim n : Nat) (acc : RIAcc S)
    (p : String × List String) : RIAcc S :=
  let colfreqs := if keyMem acc.colfreqs p.1 then acc.colfreqs
    else acc.colfreqs ++ [(p.1, List.replicate dim (0 : Int))]
  let c := p.2.foldl (riContextStep mk ch hashFn dim n) ⟨acc.cache, acc.rng, [], []⟩
  let v := (lookupA colfreqs p.1).getD []
  let v := if c.pos.isEmpty then v else addAt v c.pos.flatten 1
  let v := if c.neg.isEmpty then v else addAt v c.neg.flatten (-1)
  ⟨setA colfreqs p.1 v, c.cache, c.rng⟩

/-- `RandomIndexing._build` (model.py lines 349-384): accumulate the
rows, then return `(values, row2word, col2word)` — the stacked rows in
first-seen focus order, the focus tokens in that order, and the column
labels `0 .. dimensionality - 1`.  The sparse representation of the
values is immaterial to their content and is kept dense. -/
def RandomIndexing_build {S : Type} (mk : Nat → S) (ch : S → Nat → Nat → List Nat × S)
    (hashFn : String → Nat) (dim n : Nat) (s0 : S)
    (text : List (String × List String)) :
    List (List Int) × List String × List Nat :=
  let acc := text.foldl (riPairStep mk ch hashFn dim n) ⟨[], [], s0⟩
  (acc.colfreqs.map Prod.snd, acc.colfreqs.map Prod.fst, List.range dim)

/-- The chained comparison `lower_threshold <= freq <= higher_threshold`
of model.py line 185, with an absent higher threshold read as the
`float("inf")` default. -/
def inBounds (lo : Nat) (hi : Option Nat) (f : Nat) : Bool :=
  decide (lo ≤ f) && (match hi with | none => true | some h => decide (f ≤ h))

/-- `DSM._filter_threshold_words` processing of a single vocabulary item
(model.py lines 184-190): when the item's frequency is strictly outside
the threshold interval, delete the word's own row and its entry inside
every remaining row. -/
def filterStepWord (lo : Nat) (hi : Option Nat) (d : Colloc) (wf : String × Nat) :
    Colloc :=
  if inBounds lo hi wf.2 then d
  else (d.filter (fun p => !(p.1 == wf.1))).map
    (fun p => (p.1, p.2.filter (fun q => !(q.1 == wf.1))))

/-- `DSM._filter_threshold_words` (model.py lines 177-190):
`lower_threshold = config.get('lower_threshold', 0)`,
`higher_threshold = config.get('higher_threshold', inf)` (`none` models
the infinite default), then iterate over the vocabulary items. -/
def filter_threshold_words (cfg : Config) (vocab : Vocab) (d : Colloc) : Colloc :=
  let lo := cfg.lower_threshold.getD 0
  let hi := cfg.higher_threshold
  vocab.foldl (filterStepWord lo hi) d

/-- Whether the vocabulary records an out-of-bounds frequency for `w`. -/
def outOfBounds (lo : Nat) (hi : Option Nat) (vocab : Vocab) (w : String) : Bool :=
  vocab.any (fun p => p.1 == w && ! inBounds lo hi p.2)

/-- The attributes a model instance owns after `DSM.__init__`
(model.py lines 62-97): `window_size`, `config`, `vocabulary`,
`matrix`.  Python objects raise `AttributeError` on access to an
attribute that was never assigned; `corpusAttr` records whether a
`corpus` attribute was ever assigned — `DSM.__init__` never assigns
one, even though `_new_instance` reads `self.corpus`. -/
structure DSMState (M : Type) where
  window_size : Nat × Nat
  config : Config
  vocabulary : Vocab
  matrix : M
  corpusAttr : Option (List (List Tok))

/-- The keyword arguments `DSM.__init__` receives through `**kwargs`
(`none` = the keyword was absent or passed as Python `None`; only
non-`None` values are copied into the configuration, model.py lines
82-84). -/
structure KwArgs where
  lower_threshold : Option Nat
  higher_threshold : Option Nat
  dimensionality : Option Nat
  num_indices : Option Nat
  ordered : Option Bool
  directed : Option Bool

/-- `for key, val in kwargs.items(): if val is not None: config[key] = val`. -/
def Config.applyKw (c : Config) (kw : KwArgs) : Config :=
  ⟨match kw.ordered with | some v => some v | none => c.ordered,
   match kw.directed with | some v => some v | none => c.directed,
   match kw.lower_threshold with | some v => some v | none => c.lower_threshold,
   match kw.higher_threshold with | some v => some v | none => c.higher_threshold,
   match kw.dimensionality with | some v => some v | none => c.dimensionality,
   match kw.num_indices with | some v => some v | none => c.num_indices⟩

/-- The body of `DSM.__init__` (model.py lines 62-97), parametric in the
subclass's `_build`-and-wrap step `build` (which returns the matrix
value together with the vocabulary as mutated by `_vocabularize`):
validate the window size, adopt config / vocabulary (`if config:` and
`if vocabulary:` read an absent or empty dict as the lazily created
empty one, which has the same contents), merge the keyword overrides,
then either adopt the supplied matrix or build one from the corpus.
`self.corpus` is never assigned. -/
def dsmInitBody {M : Type}
    (build : Config → Nat × Nat → Vocab → List (List Tok) → Except PyErr (M × Vocab))
    (matrix? : Option M) (corpus : List (List Tok)) (window : List Nat)
    (vocab? : Option Vocab) (config? : Option Config) (kw : KwArgs) :
    Except PyErr (DSMState M) :=
  if window.length ≠ 2 then
    Except.error (PyErr.typeError ("Window size must be a tuple of length 2."))
  else
    let ws := (window.getD 0 0, window.getD 1 0)
    let cfg0 := match config? with | some c => c | none => Config.empty
    let voc := match vocab? with | some v => v | none => []
    let cfg := cfg0.applyKw kw
    match matrix? with
    | some m => Except.ok ⟨ws, cfg, voc, m, none⟩
    | none => do
      let mv ← build cfg ws voc corpus
      Except.ok ⟨ws, cfg, mv.2, mv.1, none⟩

/-- A call to `DSM.__init__` with its five required positional
parameters `(matrix, corpus, window_size, vocabulary, config)` plus
`**kwargs`.  `configArg` distinguishes the argument being absent from
the call (`none` — Python raises `TypeError` for the missing required
positional argument before any of the body runs) from it being passed,
possibly as `None` (`some config?`). -/
def dsmInitCall {M : Type}
    (build : Config → Nat × Nat → Vocab → List (List Tok) → Except PyErr (M × Vocab))
    (matrix? : Option M) (corpus : List (List Tok)) (window : List Nat)
    (vocab? : Option Vocab) (configArg : Option (Option Config)) (kw : KwArgs) :
    Except PyErr (DSMState M) :=
  match configArg with
  | none => Except.error
      (PyErr.typeError ("init missing 1 required positional argument: config"))
  | some config? => dsmInitBody build matrix? corpus window vocab? config? kw

/-- The `_build`-and-wrap step of `CooccurrenceDSM`: run the corpus
through `_vocabularize`, accumulate the co-occurrence dict, then apply
`_filter_threshold_words` before the `IndexMatrix` wrap (model.py lines
86-95 with the subclass `_build`).  The filtered dict carries the matrix
content; its outer keys are the row labels. -/
def coocBuildFull (cfg : Config) (ws : Nat × Nat) (v : Vocab)
    (corpus : List (List Tok)) : Except PyErr (Colloc × Vocab) := do
  let r ← vocabularize cfg ws.1 ws.2 v corpus
  Except.ok (filter_threshold_words cfg r.1 (CooccurrenceDSM_build r.2), r.1)

/-- `CooccurrenceDSM.__init__` (model.py lines 262-291).  Its
`super().__init__` call passes only the four positional arguments
`(matrix, corpus, window_size, vocabulary)` — everything else goes by
keyword into `**kwargs` — so the required positional parameter `config`
of `DSM.__init__` is never supplied. -/
def coocInitCall (corpus : List (List Tok)) (window : List Nat)
    (matrix? : Option Colloc) (vocab? : Option Vocab)
    (lt ht : Option Nat) (ord dir : Option Bool) : Except PyErr (DSMState Colloc) :=
  dsmInitCall coocBuildFull matrix? corpus window vocab? none
    ⟨lt, ht, none, none, ord, dir⟩

/-- The `_build`-and-wrap step of `RandomIndexing`: `_build` reads
`config['dimensionality']` before consuming the pair generator and
`config['num_indices']` when the first uncached context token is met
(both direct key accesses); the `(values, row2word, col2word)` triple
is wrapped as the matrix without threshold filtering. -/
def riBuildFull {S : Type} (mk : Nat → S) (ch : S → Nat → Nat → List Nat × S)
    (hashFn : String → Nat) (s0 : S) (cfg : Config) (ws : Nat × Nat) (v : Vocab)
    (corpus : List (List Tok)) :
    Except PyErr ((List (List Int) × List String × List Nat) × Vocab) :=
  match cfg.dimensionality with
  | none => Except.error (PyErr.keyError ("dimensionality"))
  | some dim =>
    match cfg.num_indices with
    | none => Except.error (PyErr.keyError ("num_indices"))
    | some n => do
      let r ← vocabularize cfg ws.1 ws.2 v corpus
      Except.ok (RandomIndexing_build mk ch hashFn dim n s0 r.2, r.1)

/-- `RandomIndexing.__init__` (model.py lines 309-346): passes all five
positional arguments (including `config`) to `DSM.__init__`, and the
six keyword overrides.  The Python defaults are
`config=None, lower_threshold=None, higher_threshold=None,
dimensionality=2000, num_indices=8, ordered=False, directed=False`. -/
def riInitCall {S : Type} (mk : Nat → S) (ch : S → Nat → Nat → List Nat × S)
    (hashFn : String → Nat) (s0 : S) (corpus : List (List Tok)) (window : List Nat)
    (config? : Option Config) (lt ht dim n : Option Nat)
    (vocab? : Option Vocab) (matrix? : Option (List (List Int) × List String × List Nat))
    (ord dir : Option Bool) :
    Except PyErr (DSMState (List (List Int) × List String × List Nat)) :=
  dsmInitCall (riBuildFull mk ch hashFn s0) matrix? corpus window vocab?
    (some config?) ⟨lt, ht, dim, n, ord, dir⟩

/-- `DSM._new_instance(matrix)` (model.py lines 132-137): re-invoke the
concrete constructor with `corpus=self.corpus, window_size=..., matrix=...,
vocabulary=..., config=...`.  `self.corpus` is read first; since
`DSM.__init__` never assigns a `corpus` attribute, this raises
`AttributeError` on every instance the constructor can produce.
`reinit` is the concrete class's constructor, applied only when the
attribute exists. -/
def DSM_new_instance {M : Type}
    (reinit : List (List Tok) → Nat × Nat → M → Vocab → Config →
      Except PyErr (DSMState M))
    (self : DSMState M) (matrix : M) : Except PyErr (DSMState M) :=
  match self.corpusAttr with
  | none => Except.error (PyErr.attributeError ("corpus"))
  | some c => reinit c self.window_size matrix self.vocabulary self.config

/-- `DSM.apply_weighting(weight_func)` (model.py lines 216-221):
`self._new_instance(weight_func(self.matrix))`. -/
def apply_weighting {M : Type}
    (reinit : List (List Tok) → Nat × Nat → M → Vocab → Config →
      Except PyErr (DSMState M))
    (weight_func : M → M) (self : DSMState M) : Except PyErr (DSMState M) :=
  DSM_new_instance reinit self (weight_func self.matrix)

/-! ### Supporting lemmas -/

theorem lookupA_bump (v : Vocab) (w x : String) :
    lookupA (bump v w) x = if w = x then some (freqOf v x + 1) else lookupA v x := by
  induction v with
  | nil => by_cases h : w = x <;> simp [bump, lookupA, freqOf, h]
  | cons kv rest ih =>
    obtain ⟨k, c⟩ := kv
    by_cases hk : k = w
    · subst hk
      by_cases hx : k = x <;> simp [bump, lookupA, freqOf, hx]
    · by_cases hx : k = x
      · subst hx
        have hwx : ¬ w = k := fun h => hk h.symm
        simp [bump, lookupA, hk, hwx]
      · simp [bump, lookupA, hk, hx, ih, freqOf]

theorem coocCount_bumpOuter (d : Colloc) (f c x y : String) :
    coocCount (bumpOuter d f c) x y =
      coocCount d x y + (if f = x ∧ c = y then 1 else 0) := by
  induction d with
  | nil =>
    by_cases hf : f = x
    · subst hf
      by_cases hc : c = y <;>
        simp [bumpOuter, coocCount, lookupA, bump, hc]
    · simp [bumpOuter, coocCount, lookupA, hf]
  | cons kv rest ih =>
    obtain ⟨k, inner⟩ := kv
    by_cases hk : k = f
    · subst hk
      by_cases hx : k = x
      · subst hx
        by_cases hc : c = y <;>
          simp [bumpOuter, coocCount, lookupA, lookupA_bump, freqOf, hc]
      · simp [bumpOuter, coocCount, lookupA, hx]
    · by_cases hx : k = x
      · subst hx
        have hfk : ¬ f = k := fun h => hk h.symm
        simp [bumpOuter, hk, coocCount, lookupA, hfk]
      · simpa [bumpOuter, hk, coocCount, lookupA, hx] using ih

theorem coocCount_foldInner (f : String) (cs : List String) (d : Colloc) (x y : String) :
    coocCount (cs.foldl (fun d c => bumpOuter d f c) d) x y =
      coocCount d x y + (if f = x then cs.count y else 0) := by
  induction cs generalizing d with
  | nil => simp
  | cons c cs' ih =>
    rw [List.foldl_cons, ih, coocCount_bumpOuter]
    by_cases hf : f = x <;> by_cases hc : c = y <;>
      simp [hf, hc, List.count_cons] <;> omega

theorem coocCount_fold (text : List (String × List String)) (d : Colloc)
    (f c : String) :
    coocCount (text.foldl (fun d p => p.2.foldl (fun d c => bumpOuter d p.1 c) d) d) f c =
      coocCount d f c +
        (((text.filter (fun p => p.1 == f)).map Prod.snd).flatten).count c := by
  induction text generalizing d with
  | nil => simp
  | cons p text' ih =>
    rw [List.foldl_cons, ih, coocCount_foldInner]
    by_cases hp : p.1 = f
    · simp [hp, List.count_append]
      omega
    · simp [hp]

/-! ### Claim theorems -/

/-- Claim C4 (confirmed): for every finite sequence of (focus, contexts)
pairs, the co-occurrence accumulation returns counts where
`counts[focus][context]` — absent keys read as zero — is exactly the
number of occurrences of the context token across the context lists
paired with that focus, duplicates inside one list each adding 1. -/
theorem claim_c4 (text : List (String × List String)) (f c : String) :
    coocCount (CooccurrenceDSM_build text) f c =
      (((text.filter (fun p => p.1 == f)).map Prod.snd).flatten).count c := by
  have h := coocCount_fold text [] f c
  simpa [CooccurrenceDSM_build, coocCount, lookupA] using h

/-- Claim C7 (corrected): the positive half of a cached index vector is
its first `size // 2` entries and the negative half the remainder, but
with an odd length it is the NEGATIVE half that receives one more index
(the claim said one fewer). -/
theorem claim_c7 (iv : List Nat) :
    posHalf iv ++ negHalf iv = iv ∧
    (iv.length % 2 = 1 → (negHalf iv).length = (posHalf iv).length + 1) := by
  refine ⟨List.take_append_drop _ iv, fun h => ?_⟩
  simp only [posHalf, negHalf, List.length_take, List.length_drop]
  omega

/-- Witness for C7 at the concrete odd-length index vector `[0, 1, 2]`. -/
theorem claim_c7_witness :
    posHalf [0, 1, 2] ++ negHalf [0, 1, 2] = [0, 1, 2] ∧
    (negHalf [0, 1, 2]).length = (posHalf [0, 1, 2]).length + 1 :=
  ⟨(claim_c7 [0, 1, 2]).1, (claim_c7 [0, 1, 2]).2 (by decide)⟩

/-- Counterexample for C7 as stated: for the odd-length index vector
`[0, 1, 2]` the negative half does NOT receive one fewer index than the
positive half (it receives one more: lengths 2 versus 1). -/
theorem claim_c7_cex :
    ¬ ((posHalf [0, 1, 2]).length = (negHalf [0, 1, 2]).length + 1) := by
  decide

theorem riContextFold_rng_irrel {S : Type} (mk : Nat → S)
    (ch : S → Nat → Nat → List Nat × S) (hashFn : String → Nat) (dim n : Nat)
    (cs : List String) :
    ∀ (cache : List (String × List Nat)) (pos neg : List (List Nat)) (r r' : S),
      (cs.foldl (riContextStep mk ch hashFn dim n) ⟨cache, r, pos, neg⟩).cache =
        (cs.foldl (riContextStep mk ch hashFn dim n) ⟨cache, r', pos, neg⟩).cache ∧
      (cs.foldl (riContextStep mk ch hashFn dim n) ⟨cache, r, pos, neg⟩).pos =
        (cs.foldl (riContextStep mk ch hashFn dim n) ⟨cache, r', pos, neg⟩).pos ∧
      (cs.foldl (riContextStep mk ch hashFn dim n) ⟨cache, r, pos, neg⟩).neg =
        (cs.foldl (riContextStep mk ch hashFn dim n) ⟨cache, r', pos, neg⟩).neg := by
  induction cs with
  | nil => exact fun _ _ _ _ _ => ⟨rfl, rfl, rfl⟩
  | cons c cs' ih =>
    intro cache pos neg r r'
    simp only [List.foldl_cons, riContextStep]
    cases h : lookupA cache c with
    | some iv =>
      simpa [h] using ih cache (pos ++ [posHalf iv]) (neg ++ [negHalf iv]) r r'
    | none => simp [h]

theorem riFold_rng_irrel {S : Type} (mk : Nat → S)
    (ch : S → Nat → Nat → List Nat × S) (hashFn : String → Nat) (dim n : Nat)
    (text : List (String × List String)) :
    ∀ (colfreqs : List (String × List Int)) (cache : List (String × List Nat))
      (r r' : S),
      (text.foldl (riPairStep mk ch hashFn dim n) ⟨colfreqs, cache, r⟩).colfreqs =
        (text.foldl (riPairStep mk ch hashFn dim n) ⟨colfreqs, cache, r'⟩).colfreqs ∧
      (text.foldl (riPairStep mk ch hashFn dim n) ⟨colfreqs, cache, r⟩).cache =
        (text.foldl (riPairStep mk ch hashFn dim n) ⟨colfreqs, cache, r'⟩).cache := by
  induction text with
  | nil => exact fun _ _ _ _ => ⟨rfl, rfl⟩
  | cons p text' ih =>
    intro colfreqs cache r r'
    obtain ⟨h1, h2, h3⟩ :=
      riContextFold_rng_irrel mk ch hashFn dim n p.2 cache [] [] r r'
    simp only [List.foldl_cons, riPairStep, h1, h2, h3]
    exact ih _ _ _ _

/-- Claim C9 (confirmed): the random-indexing build is a deterministic
function of the corpus pairs, the configuration, the hash-based seed
derivation and the seeded-draw algorithm.  Modelling the numpy global
generator as threaded state, two runs started at arbitrary (and
arbitrarily different) generator states produce identical
`(values, row2word, col2word)` triples, because every index-vector draw
is preceded by `np.random.seed(hash(token) % 4294967295)`, which makes
the draw depend only on the token. -/
theorem claim_c9 {S : Type} (mk : Nat → S) (ch : S → Nat → Nat → List Nat × S)
    (hashFn : String → Nat) (dim n : Nat) (s0 s1 : S)
    (text : List (String × List String)) :
    RandomIndexing_build mk ch hashFn dim n s0 text =
      RandomIndexing_build mk ch hashFn dim n s1 text := by
  obtain ⟨h1, _⟩ := riFold_rng_irrel mk ch hashFn dim n text [] [] s0 s1
  simp [RandomIndexing_build, h1]

theorem lookupA_append {β : Type} (d e : List (String × β)) (x : String) :
    lookupA (d ++ e) x =
      match lookupA d x with
      | some w => some w
      | none => lookupA e x := by
  induction d with
  | nil => simp [lookupA]
  | cons p rest ih =>
    obtain ⟨a, b⟩ := p
    by_cases h : a = x <;> simp [lookupA, h, ih]

theorem lookupA_setA {β : Type} (d : List (String × β)) (k x : String) (v : β) :
    lookupA (setA d k v) x = if k = x then some v else lookupA d x := by
  induction d with
  | nil => by_cases h : k = x <;> simp [setA, lookupA, h]
  | cons p rest ih =>
    obtain ⟨a, b⟩ := p
    by_cases hak : a = k
    · subst hak
      by_cases hax : a = x <;> simp [setA, lookupA, hax]
    · by_cases hax : a = x
      · subst hax
        have hkx : ¬ k = a := fun h => hak h.symm
        simp [setA, lookupA, hak, hkx]
      · simp [setA, lookupA, hak, hax, ih]

theorem keyMem_append_single {β : Type} (d : List (String × β)) (k x : String)
    (v : β) : keyMem (d ++ [(k, v)]) x = (keyMem d x || (k == x)) := by
  rw [keyMem, lookupA_append]
  cases hl : lookupA d x with
  | some w => simp [keyMem, hl]
  | none => by_cases h : k = x <;> simp [keyMem, hl, lookupA, h]

theorem keyMem_setA {β : Type} (d : List (String × β)) (k x : String) (v : β) :
    keyMem (setA d k v) x = (keyMem d x || (k == x)) := by
  rw [keyMem, lookupA_setA]
  by_cases h : k = x <;> simp [keyMem, h]

theorem keyMem_riPairStep {S : Type} (mk : Nat → S) (ch : S → Nat → Nat → List Nat × S)
    (hashFn : String → Nat) (dim n : Nat) (acc : RIAcc S) (p : String × List String)
    (x : String) :
    keyMem (riPairStep mk ch hashFn dim n acc p).colfreqs x =
      (keyMem acc.colfreqs x || (p.1 == x)) := by
  by_cases hm : keyMem acc.colfreqs p.1
  · simp only [riPairStep, hm, if_true, keyMem_setA]
  · simp only [riPairStep, hm, Bool.false_eq_true, if_false, keyMem_setA,
      keyMem_append_single]
    by_cases h : p.1 = x <;> simp [h]

theorem keyMem_riFold {S : Type} (mk : Nat → S) (ch : S → Nat → Nat → List Nat × S)
    (hashFn : String → Nat) (dim n : Nat) (text : List (String × List String)) :
    ∀ (acc : RIAcc S) (x : String),
      keyMem (text.foldl (riPairStep mk ch hashFn dim n) acc).colfreqs x =
        (keyMem acc.colfreqs x || text.any (fun p => p.1 == x)) := by
  induction text with
  | nil => simp
  | cons p text' ih =>
    intro acc x
    rw [List.foldl_cons, ih, keyMem_riPairStep]
    simp [Bool.or_assoc]

theorem lookupA_riPairStep_ne {S : Type} (mk : Nat → S)
    (ch : S → Nat → Nat → List Nat × S) (hashFn : String → Nat) (dim n : Nat)
    (acc : RIAcc S) (p : String × List String) (f : String) (h : ¬ p.1 = f) :
    lookupA (riPairStep mk ch hashFn dim n acc p).colfreqs f =
      lookupA acc.colfreqs f := by
  simp only [riPairStep, lookupA_setA, if_neg h]
  by_cases hm : keyMem acc.colfreqs p.1
  · simp [hm]
  · simp only [hm, Bool.false_eq_true, if_false, lookupA_append]
    cases hl : lookupA acc.colfreqs f with
    | some w => simp [hl]
    | none => simp [hl, lookupA, h]

theorem lookupA_riPairStep_empty {S : Type} (mk : Nat → S)
    (ch : S → Nat → Nat → List Nat × S) (hashFn : String → Nat) (dim n : Nat)
    (acc : RIAcc S) (f : String) :
    lookupA (riPairStep mk ch hashFn dim n acc (f, [])).colfreqs f =
      some ((lookupA acc.colfreqs f).getD (List.replicate dim (0 : Int))) := by
  by_cases hm : keyMem acc.colfreqs f
  · have hm' : (lookupA acc.colfreqs f).isSome = true := hm
    obtain ⟨w, hw⟩ := Option.isSome_iff_exists.mp hm'
    simp [riPairStep, hm, lookupA_setA, hw]
  · have hnone : lookupA acc.colfreqs f = none := by
      cases hl : lookupA acc.colfreqs f with
      | none => rfl
      | some w => exact absurd (by simp [keyMem, hl]) hm
    simp [riPairStep, hm, lookupA_setA, lookupA_append, hnone, lookupA]

theorem lookupA_riFold_empty {S : Type} (mk : Nat → S)
    (ch : S → Nat → Nat → List Nat × S) (hashFn : String → Nat) (dim n : Nat)
    (f : String) (text : List (String × List String)) :
    ∀ acc : RIAcc S, (∀ p ∈ text, p.1 = f → p.2 = ([] : List String)) →
      lookupA (text.foldl (riPairStep mk ch hashFn dim n) acc).colfreqs f =
        (match lookupA acc.colfreqs f with
         | some v => some v
         | none => if text.any (fun p => p.1 == f)
             then some (List.replicate dim (0 : Int)) else none) := by
  induction text with
  | nil =>
    intro acc _
    cases hl : lookupA acc.colfreqs f <;> simp [hl]
  | cons p text' ih =>
    intro acc h
    obtain ⟨p1, p2⟩ := p
    rw [List.foldl_cons]
    have htail : ∀ q ∈ text', q.1 = f → q.2 = ([] : List String) :=
      fun q hq hqf => h q (List.mem_cons_of_mem _ hq) hqf
    by_cases hp : p1 = f
    · have hempty : p2 = [] := h (p1, p2) (by simp) hp
      rw [ih _ htail, hp, hempty, lookupA_riPairStep_empty]
      have hb : (f == f) = true := beq_iff_eq.mpr rfl
      cases hl : lookupA acc.colfreqs f <;> simp [hl, hb]
    · have hb : (p1 == f) = false := beq_eq_false_iff_ne.mpr hp
      rw [ih _ htail, lookupA_riPairStep_ne mk ch hashFn dim n acc (p1, p2) f hp]
      cases hl : lookupA acc.colfreqs f with
      | some w => simp [hl]
      | none =>
        simp only [hl, List.any_cons, hb, Bool.false_or]

theorem keyMem_bumpOuter (d : Colloc) (g c x : String) :
    keyMem (bumpOuter d g c) x = (keyMem d x || (g == x)) := by
  induction d with
  | nil => by_cases h : g = x <;> simp [bumpOuter, keyMem, lookupA, h]
  | cons p rest ih =>
    obtain ⟨a, inner⟩ := p
    by_cases hag : a = g
    · subst hag
      by_cases hax : a = x <;> simp [bumpOuter, keyMem, lookupA, hax]
    · by_cases hax : a = x
      · subst hax
        simp [bumpOuter, hag, keyMem, lookupA]
      · simp only [bumpOuter, if_neg hag]
        simpa [keyMem, lookupA, hax] using ih

theorem keyMem_coocInner (g : String) (cs : List String) (d : Colloc) (x : String) :
    keyMem (cs.foldl (fun d c => bumpOuter d g c) d) x =
      (keyMem d x || (g == x && !cs.isEmpty)) := by
  induction cs generalizing d with
  | nil => simp
  | cons c cs' ih =>
    rw [List.foldl_cons, ih, keyMem_bumpOuter]
    by_cases h : g = x
    · simp [h]
    · have hb : (g == x) = false := beq_eq_false_iff_ne.mpr h
      simp [hb]

theorem keyMem_coocFold (text : List (String × List String)) :
    ∀ (d : Colloc) (x : String),
      keyMem (text.foldl (fun d p => p.2.foldl (fun d c => bumpOuter d p.1 c) d) d) x =
        (keyMem d x || text.any (fun p => p.1 == x && !p.2.isEmpty)) := by
  induction text with
  | nil => simp
  | cons p text' ih =>
    intro d x
    rw [List.foldl_cons, ih, keyMem_coocInner]
    simp [Bool.or_assoc]

theorem mem_map_fst_iff_keyMem {β : Type} (d : List (String × β)) (k : String) :
    k ∈ d.map Prod.fst ↔ keyMem d k = true := by
  induction d with
  | nil => simp [keyMem, lookupA]
  | cons p rest ih =>
    obtain ⟨a, b⟩ := p
    by_cases h : a = k
    · simp [keyMem, lookupA, h]
    · have h' : ¬ k = a := fun hh => h hh.symm
      simp [keyMem, lookupA, h, h', ih]

theorem zip_map_fst_snd {α β : Type} (l : List (α × β)) :
    (l.map Prod.fst).zip (l.map Prod.snd) = l := by
  induction l with
  | nil => rfl
  | cons p rest ih => simp [ih]

/-- Claim C10 (confirmed): a (focus, contexts) pair with an empty
context list still creates — and the returned triple still contains — an
all-zero row for that focus in the random-indexing build, while the
co-occurrence accumulation has the focus as an outer key exactly when
some pair contributed at least one context token for it; hence a focus
all of whose context lists are empty is a zero row in the former and
absent from the latter. -/
theorem claim_c10 {S : Type} (mk : Nat → S) (ch : S → Nat → Nat → List Nat × S)
    (hashFn : String → Nat) (dim n : Nat) (s0 : S)
    (text : List (String × List String)) (f : String) :
    ((f, ([] : List String)) ∈ text →
      f ∈ (RandomIndexing_build mk ch hashFn dim n s0 text).2.1) ∧
    (keyMem (CooccurrenceDSM_build text) f =
      text.any (fun p => p.1 == f && !p.2.isEmpty)) ∧
    ((∀ p ∈ text, p.1 = f → p.2 = ([] : List String)) →
      ((f, ([] : List String)) ∈ text →
        lookupA
          (((RandomIndexing_build mk ch hashFn dim n s0 text).2.1).zip
            ((RandomIndexing_build mk ch hashFn dim n s0 text).1)) f =
          some (List.replicate dim (0 : Int))) ∧
      keyMem (CooccurrenceDSM_build text) f = false) := by
  have hany : ((f, ([] : List String)) ∈ text) →
      text.any (fun p => p.1 == f) = true := by
    intro hmem
    exact List.any_eq_true.mpr ⟨(f, []), hmem, by simp⟩
  refine ⟨?_, ?_, ?_⟩
  · intro hmem
    simp only [RandomIndexing_build]
    rw [mem_map_fst_iff_keyMem, keyMem_riFold, hany hmem]
    simp
  · exact keyMem_coocFold text [] f |>.trans (by simp [keyMem, lookupA])
  · intro hall
    constructor
    · intro hmem
      simp only [RandomIndexing_build, zip_map_fst_snd]
      rw [lookupA_riFold_empty mk ch hashFn dim n f text ⟨[], [], s0⟩ hall]
      simp [lookupA, hany hmem]
    · refine (keyMem_coocFold text [] f).trans ?_
      have hz : text.any (fun p => p.1 == f && !p.2.isEmpty) = false := by
        rw [List.any_eq_false]
        intro p hp
        by_cases hpf : p.1 = f
        · have h2 := hall p hp hpf
          simp [h2, hpf]
        · have hb : (p.1 == f) = false := beq_eq_false_iff_ne.mpr hpf
          simp [hb]
      simp [hz, keyMem, lookupA]

/-- Witness for C10 at the two-pair text
`[(a, []), (b, [a])]`: focus `a` has only the empty context list, is a
zero row of the random-indexing result, and is absent from the
co-occurrence counts, while focus `b` is present in the latter. -/
theorem claim_c10_witness :
    (("a" : String), ([] : List String)) ∈
        [(("a" : String), ([] : List String)), (("b"), [("a")])] ∧
    ("a" : String) ∈ (RandomIndexing_build (S := Unit) (fun _ => ())
        (fun s _ n => (List.replicate n 0, s)) (fun _ => 0) 2 2 ()
        [(("a"), []), (("b"), [("a")])]).2.1 ∧
    lookupA (((RandomIndexing_build (S := Unit) (fun _ => ())
        (fun s _ n => (List.replicate n 0, s)) (fun _ => 0) 2 2 ()
        [(("a"), []), (("b"), [("a")])]).2.1).zip
        ((RandomIndexing_build (S := Unit) (fun _ => ())
        (fun s _ n => (List.replicate n 0, s)) (fun _ => 0) 2 2 ()
        [(("a"), []), (("b"), [("a")])]).1)) ("a") =
      some (List.replicate 2 (0 : Int)) ∧
    keyMem (CooccurrenceDSM_build [(("a"), []), (("b"), [("a")])]) ("a") = false := by
  have h := claim_c10 (S := Unit) (fun _ => ())
    (fun s _ n => (List.replicate n 0, s)) (fun _ => 0) 2 2 ()
    [(("a"), []), (("b"), [("a")])] ("a")
  have hmem : (("a" : String), ([] : List String)) ∈
      [(("a" : String), ([] : List String)), (("b"), [("a")])] := by simp
  have hall : ∀ p ∈ [(("a" : String), ([] : List String)), (("b"), [("a")])],
      p.1 = ("a") → p.2 = ([] : List String) := by decide
  exact ⟨hmem, h.1 hmem, (h.2.2 hall).1 hmem, (h.2.2 hall).2⟩

theorem addAt_nil (v : List Int) (x : Int) : addAt v [] x = v := rfl

theorem addAt_cons (v : List Int) (j : Nat) (rest : List Nat) (x : Int) :
    addAt v (j :: rest) x = addAt (v.set j (v.getD j 0 + x)) rest x := rfl

theorem addAt_length (v : List Int) (idxs : List Nat) (x : Int) :
    (addAt v idxs x).length = v.length := by
  induction idxs generalizing v with
  | nil => rfl
  | cons j rest ih =>
    rw [addAt_cons, ih, List.length_set]

theorem addAt_getD (v : List Int) (idxs : List Nat) (x : Int) (j : Nat)
    (hb : ∀ i ∈ idxs, i < v.length) (hj : j < v.length) :
    (addAt v idxs x).getD j 0 = v.getD j 0 + x * (idxs.count j : Int) := by
  induction idxs generalizing v with
  | nil => simp [addAt_nil]
  | cons a rest ih =>
    rw [addAt_cons]
    have ha : a < v.length := hb a (by simp)
    have hb' : ∀ i ∈ rest, i < (v.set a (v.getD a 0 + x)).length := by
      rw [List.length_set]
      exact fun i hi => hb i (List.mem_cons_of_mem _ hi)
    rw [ih _ hb' (by rw [List.length_set]; exact hj)]
    by_cases hja : a = j
    · subst hja
      have hset : (v.set a (v.getD a 0 + x)).getD a 0 = v.getD a 0 + x := by
        simp [List.getD, List.getElem?_set_self, ha]
      rw [hset]
      have hc : (a :: rest).count a = rest.count a + 1 := by
        simp [List.count_cons]
      rw [hc]
      push_cast
      ring
    · have hset : (v.set a (v.getD a 0 + x)).getD j 0 = v.getD j 0 := by
        simp [List.getD, List.getElem?_set_ne, hja]
      rw [hset]
      have hc : (a :: rest).count j = rest.count j := by
        have : ¬ j = a := fun h => hja h.symm
        simp [List.count_cons, this]
      rw [hc]

theorem sum_count_eq_length (l : List Nat) (dim : Nat) (hb : ∀ i ∈ l, i < dim) :
    (∑ j in Finset.range dim, l.count j) = l.length := by
  induction l with
  | nil => simp
  | cons a rest ih =>
    have ha : a < dim := hb a (by simp)
    have hrest := ih (fun i hi => hb i (List.mem_cons_of_mem _ hi))
    have hcount : ∀ j, (a :: rest).count j = rest.count j + if j = a then 1 else 0 := by
      intro j
      by_cases h : j = a <;> simp [List.count_cons, h]
    calc (∑ j in Finset.range dim, (a :: rest).count j)
        = ∑ j in Finset.range dim, (rest.count j + if j = a then 1 else 0) := by
          exact Finset.sum_congr rfl (fun j _ => hcount j)
      _ = (∑ j in Finset.range dim, rest.count j) +
            ∑ j in Finset.range dim, (if j = a then 1 else 0) :=
          Finset.sum_add_distrib
      _ = rest.length + 1 := by
          rw [hrest, Finset.sum_ite_eq' (Finset.range dim) a (fun _ => 1)]
          simp [Finset.mem_range.mpr ha]
      _ = (a :: rest).length := by simp

/-- Claim C8 (corrected): the sum over the focus accumulator vector of
the absolute values of the net changes applied for a single
context-token occurrence equals the length of the token's index vector
(`num_indices`) PROVIDED no position occurs in both the positive and the
negative half of the index vector; repeats inside one half still sum
correctly, but a position shared between halves receives `+1` and `-1`
which cancel.  (The index vector is drawn with replacement from
`np.arange(dimensionality)`, so shared positions are possible — and
forced when `dimensionality = 1`.) -/
theorem claim_c8 (v : List Int) (iv : List Nat) (dim : Nat)
    (hlen : v.length = dim) (hb : ∀ i ∈ iv, i < dim)
    (hdisj : ∀ j, ¬ (j ∈ posHalf iv ∧ j ∈ negHalf iv)) :
    (∑ j in Finset.range dim,
        ((applyIndexVector v iv).getD j 0 - v.getD j 0).natAbs) = iv.length := by
  have hposb : ∀ i ∈ posHalf iv, i < v.length :=
    fun i hi => hlen ▸ hb i (List.mem_of_mem_take hi)
  have hnegb : ∀ i ∈ negHalf iv, i < v.length :=
    fun i hi => hlen ▸ hb i (List.mem_of_mem_drop hi)
  have hlen1 : (addAt v (posHalf iv) 1).length = v.length := addAt_length _ _ _
  have key : ∀ j ∈ Finset.range dim,
      ((applyIndexVector v iv).getD j 0 - v.getD j 0).natAbs =
        (posHalf iv).count j + (negHalf iv).count j := by
    intro j hj
    have hjv : j < v.length := hlen ▸ Finset.mem_range.mp hj
    rw [applyIndexVector,
      addAt_getD _ _ _ _ (fun i hi => hlen1 ▸ hnegb i hi) (hlen1 ▸ hjv),
      addAt_getD _ _ _ _ hposb hjv]
    have harith : v.getD j 0 + 1 * ((posHalf iv).count j : Int) +
        (-1) * ((negHalf iv).count j : Int) - v.getD j 0 =
        ((posHalf iv).count j : Int) - ((negHalf iv).count j : Int) := by ring
    rw [harith]
    by_cases hp : (posHalf iv).count j = 0
    · simp [hp]
    · by_cases hn : (negHalf iv).count j = 0
      · simp [hn]
      · exact absurd
          ⟨List.count_pos_iff.mp (Nat.pos_of_ne_zero hp),
           List.count_pos_iff.mp (Nat.pos_of_ne_zero hn)⟩ (hdisj j)
  rw [Finset.sum_congr rfl key, Finset.sum_add_distrib,
    sum_count_eq_length (posHalf iv) dim (fun i hi => hb i (List.mem_of_mem_take hi)),
    sum_count_eq_length (negHalf iv) dim (fun i hi => hb i (List.mem_of_mem_drop hi))]
  simp only [posHalf, negHalf, List.length_take, List.length_drop]
  omega

/-- Witness for C8 (amended) at `dim = 2`, index vector `[0, 1]`
(`num_indices = 2`, halves disjoint) on the zero accumulator: the
absolute changes sum to 2. -/
theorem claim_c8_witness :
    (∑ j in Finset.range 2,
        ((applyIndexVector [0, 0] [0, 1]).getD j 0 -
          ([0, 0] : List Int).getD j 0).natAbs) = 2 := by
  have h := claim_c8 [0, 0] [0, 1] 2 (by decide) (by decide)
    (by intro j h; simp [posHalf, negHalf] at h; omega)
  simpa using h

/-- Counterexample for C8 as stated: with `dimensionality = 1` the index
vector can only be all zeros — `np.random.choice(np.arange(1), ...)`
has no other value to draw — so for `num_indices = 2` the forced index
vector is `[0, 0]`, its positive half `[0]` and negative half `[0]`
cancel on the single accumulator cell, and the sum of absolute changes
is 0, not `num_indices = 2`. -/
theorem claim_c8_cex :
    ¬ ((∑ j in Finset.range 1,
        ((applyIndexVector [0] [0, 0]).getD j 0 -
          ([0] : List Int).getD j 0).natAbs) = 2) := by
  decide

theorem flatten_eq (l : List Tok) : flatten l = (l.map tokensOf).flatten := by
  induction l with
  | nil => rfl
  | cons t rest ih => cases t <;> simp [flatten, tokensOf, ih]

theorem enumFrom_fst_ge {α : Type} (l : List α) :
    ∀ (k : Nat), ∀ p ∈ l.enumFrom k, k ≤ p.1 := by
  induction l with
  | nil => simp
  | cons a rest ih =>
    intro k p hp
    rw [List.enumFrom_cons] at hp
    cases hp with
    | head => exact Nat.le_refl k
    | tail _ hp => exact Nat.le_of_succ_le (ih (k + 1) p hp)

theorem slice_eq_enumFrom_filter {α : Type} (s : List α) :
    ∀ (k a b : Nat),
      (s.drop a).take (b - a) =
        ((s.enumFrom k).filter
          (fun p => decide (k + a ≤ p.1 ∧ p.1 < k + b))).map Prod.snd := by
  induction s with
  | nil => intro k a b; simp
  | cons x xs ih =>
    intro k a b
    rw [List.enumFrom_cons, List.filter_cons]
    cases a with
    | zero =>
      cases b with
      | zero =>
        have hhead : (decide (k + 0 ≤ ((k, x) : Nat × α).1 ∧
            ((k, x) : Nat × α).1 < k + 0)) = false :=
          decide_eq_false (by omega)
        have htail : (xs.enumFrom (k + 1)).filter
            (fun p => decide (k + 0 ≤ p.1 ∧ p.1 < k + 0)) = [] := by
          refine List.filter_eq_nil_iff.mpr ?_
          intro p hp
          have hge := enumFrom_fst_ge xs (k + 1) p hp
          simp only [decide_eq_true_eq]
          omega
        simp [hhead, htail]
      | succ b' =>
        have hhead : (decide (k + 0 ≤ ((k, x) : Nat × α).1 ∧
            ((k, x) : Nat × α).1 < k + (b' + 1))) = true :=
          decide_eq_true (by omega)
        have hcongr : (xs.enumFrom (k + 1)).filter
            (fun p => decide (k + 0 ≤ p.1 ∧ p.1 < k + (b' + 1))) =
            (xs.enumFrom (k + 1)).filter
            (fun p => decide ((k + 1) + 0 ≤ p.1 ∧ p.1 < (k + 1) + b')) := by
          refine List.filter_congr ?_
          intro p hp
          have hge := enumFrom_fst_ge xs (k + 1) p hp
          exact decide_eq_decide.mpr (by omega)
        rw [hhead, if_pos rfl, hcongr]
        simp only [List.drop_zero, Nat.sub_zero, List.take_succ_cons, List.map_cons]
        have hx := ih (k + 1) 0 b'
        simp only [List.drop_zero, Nat.sub_zero] at hx
        rw [hx]
    | succ a' =>
      have hhead : (decide (k + (a' + 1) ≤ ((k, x) : Nat × α).1 ∧
          ((k, x) : Nat × α).1 < k + b)) = false :=
        decide_eq_false (by omega)
      rw [hhead, if_neg (by simp)]
      rw [List.drop_succ_cons]
      have harith : b - (a' + 1) = (b - 1) - a' := by omega
      rw [harith, ih (k + 1) a' (b - 1)]
      refine congrArg (List.map Prod.snd) (List.filter_congr ?_)
      intro p hp
      have hge := enumFrom_fst_ge xs (k + 1) p hp
      exact decide_eq_decide.mpr (by omega)

/-- Claim C3 (confirmed): the pre-transformation context lists computed
by `DSM._vocabularize` for a focus at sentence position `i` with window
`(L, R)` are exactly the flattened tokens of sentence positions
`[max(0, i - L), i)` followed by those of `(i, min(n, i + R + 1))` —
independently of the configuration, so also under n-gram groups and
with `ordered` enabled; and with filtering and tagging disabled the
emitted pair is literally the focus with that span. -/
theorem claim_c3 :
    (∀ (s : List Tok) (i L R : Nat),
      rawLeft s i L ++ rawRight s i R = specContext s i L R) ∧
    (∀ (cfg : Config) (L R : Nat) (s : List Tok) (i : Nat) (v : Vocab)
      (f : String),
      cfg.lower_threshold = some 0 → cfg.ordered = none → cfg.directed = none →
      vocabFocus cfg L R s i v f =
        Except.ok (bump v f, (f, rawLeft s i L ++ rawRight s i R))) := by
  constructor
  · intro s i L R
    have hleft : rawLeft s i L =
        ((s.enum.filter (fun p => decide (max 0 ((i : Int) - (L : Int)) ≤ (p.1 : Int) ∧
          (p.1 : Int) < (i : Int)))).map (fun p => tokensOf p.2)).flatten := by
      rw [rawLeft]
      have htonat : (if (i : Int) - (L : Int) > 0 then (i : Int) - (L : Int)
          else 0).toNat = i - L := by
        split <;> omega
      rw [htonat]
      have hslice := slice_eq_enumFrom_filter s 0 (i - L) i
      have harith : i - (i - L) = i - (i - L) := rfl
      rw [flatten_eq]
      have henum : s.enum = s.enumFrom 0 := rfl
      rw [henum, hslice, List.map_map]
      refine congrArg List.flatten ?_
      refine congrArg (List.map _) (List.filter_congr ?_)
      intro p _
      exact decide_eq_decide.mpr (by omega)
    have hright : rawRight s i R =
        ((s.enum.filter (fun p => decide ((i : Int) < (p.1 : Int) ∧
          (p.1 : Int) < min ((s.length : Int)) ((i : Int) + (R : Int) + 1)))).map
          (fun p => tokensOf p.2)).flatten := by
      rw [rawRight]
      have hslice := slice_eq_enumFrom_filter s 0 (i + 1)
        (if i + R + 1 ≤ s.length then i + R + 1 else s.length)
      rw [flatten_eq]
      have henum : s.enum = s.enumFrom 0 := rfl
      rw [henum, hslice, List.map_map]
      refine congrArg List.flatten ?_
      refine congrArg (List.map _) (List.filter_congr ?_)
      intro p _
      refine decide_eq_decide.mpr ?_
      rw [Int.min_def]
      split <;> (try split) <;> omega
    rw [hleft, hright, specContext]
  · intro cfg L R s i v f h1 h2 h3
    obtain ⟨o, d, lt, ht, dm, n⟩ := cfg
    simp only at h1 h2 h3
    subst h1
    subst h2
    subst h3
    simp [vocabFocus]

/-- Witness for C3 at the five-token sentence with window `(1, 1)` and
focus position 2, plus a concrete run of the per-focus extraction with
trivial configuration. -/
theorem claim_c3_witness :
    rawLeft [Tok.single ("a"), Tok.single ("b"), Tok.single ("c"),
        Tok.single ("d"), Tok.single ("e")] 2 1 ++
      rawRight [Tok.single ("a"), Tok.single ("b"), Tok.single ("c"),
        Tok.single ("d"), Tok.single ("e")] 2 1 =
      specContext [Tok.single ("a"), Tok.single ("b"), Tok.single ("c"),
        Tok.single ("d"), Tok.single ("e")] 2 1 1 ∧
    vocabFocus ⟨none, none, some 0, none, none, none⟩ 1 1
        [Tok.single ("a"), Tok.single ("b")] 0 [] ("a") =
      Except.ok (bump [] ("a"), (("a"),
        rawLeft [Tok.single ("a"), Tok.single ("b")] 0 1 ++
          rawRight [Tok.single ("a"), Tok.single ("b")] 0 1)) :=
  ⟨claim_c3.1 _ 2 1 1,
   claim_c3.2 ⟨none, none, some 0, none, none, none⟩ 1 1 _ 0 [] ("a")
     rfl rfl rfl⟩

theorem except_bind_error {ε α β : Type} (e : ε) (f : α → Except ε β) :
    (Except.error e >>= f) = Except.error e := rfl

theorem except_bind_ok {ε α β : Type} (a : α) (f : α → Except ε β) :
    (Except.ok a >>= f) = f a := rfl

theorem vocabFocus_no_lt (cfg : Config) (h : cfg.lower_threshold = none)
    (L R : Nat) (s : List Tok) (i : Nat) (v : Vocab) (f : String) :
    vocabFocus cfg L R s i v f =
      Except.error (PyErr.keyError ("lower_threshold")) := by
  simp [vocabFocus, h]

theorem vocabGroup_nil (cfg : Config) (L R : Nat) (s : List Tok) (i : Nat)
    (v : Vocab) : vocabGroup cfg L R s i v [] = Except.ok (v, []) := rfl

theorem vocabGroup_no_lt (cfg : Config) (h : cfg.lower_threshold = none)
    (L R : Nat) (s : List Tok) (i : Nat) (v : Vocab) (g : List String)
    (hg : g ≠ []) :
    vocabGroup cfg L R s i v g =
      Except.error (PyErr.keyError ("lower_threshold")) := by
  cases g with
  | nil => exact absurd rfl hg
  | cons f rest =>
    simp [vocabGroup, vocabFocus_no_lt cfg h, except_bind_error]

theorem vocabSentenceAux_all_empty (cfg : Config) (L R : Nat) (s : List Tok) :
    ∀ (rest : List Tok) (v : Vocab) (i : Nat),
      (∀ e ∈ rest, tokensOf e = []) →
      vocabSentenceAux cfg L R s v i rest = Except.ok (v, []) := by
  intro rest
  induction rest with
  | nil => intro v i _; rfl
  | cons e rest' ih =>
    intro v i hall
    have he : tokensOf e = [] := hall e (by simp)
    have htail : ∀ e' ∈ rest', tokensOf e' = [] :=
      fun e' he' => hall e' (List.mem_cons_of_mem _ he')
    simp [vocabSentenceAux, he, vocabGroup_nil, ih v (i + 1) htail,
      except_bind_ok]

theorem vocabSentenceAux_no_lt (cfg : Config) (h : cfg.lower_threshold = none)
    (L R : Nat) (s : List Tok) :
    ∀ (rest : List Tok) (v : Vocab) (i : Nat),
      (∃ e ∈ rest, tokensOf e ≠ []) →
      vocabSentenceAux cfg L R s v i rest =
        Except.error (PyErr.keyError ("lower_threshold")) := by
  intro rest
  induction rest with
  | nil => intro v i hne; simp at hne
  | cons e rest' ih =>
    intro v i hne
    by_cases hg : tokensOf e = []
    · have hwit : ∃ e' ∈ rest', tokensOf e' ≠ [] := by
        obtain ⟨e', he', hne'⟩ := hne
        cases he' with
        | head => exact absurd hg hne'
        | tail _ hmem => exact ⟨e', hmem, hne'⟩
      simp [vocabSentenceAux, hg, vocabGroup_nil, ih v (i + 1) hwit,
        except_bind_ok]
      rfl
    · simp [vocabSentenceAux, vocabGroup_no_lt cfg h L R s i v _ hg,
        except_bind_error]

theorem vocabularize_no_lt (cfg : Config) (h : cfg.lower_threshold = none)
    (L R : Nat) :
    ∀ (corpus : List (List Tok)) (v : Vocab),
      (∃ s ∈ corpus, ∃ e ∈ s, tokensOf e ≠ []) →
      vocabularize cfg L R v corpus =
        Except.error (PyErr.keyError ("lower_threshold")) := by
  intro corpus
  induction corpus with
  | nil => intro v hne; simp at hne
  | cons s rest ih =>
    intro v hne
    by_cases hs : ∃ e ∈ s, tokensOf e ≠ []
    · have hserr := vocabSentenceAux_no_lt cfg h L R s s v 0 hs
      simp only [vocabularize, vocabularizeSentence, hserr, except_bind_error]
    · have hall : ∀ e ∈ s, tokensOf e = [] := by
        intro e he
        by_contra hc
        exact hs ⟨e, he, hc⟩
      have hwit : ∃ s' ∈ rest, ∃ e ∈ s', tokensOf e ≠ [] := by
        obtain ⟨s', hs', hw⟩ := hne
        cases hs' with
        | head => exact absurd hw hs
        | tail _ hmem => exact ⟨s', hmem, hw⟩
      simp [vocabularize, vocabularizeSentence,
        vocabSentenceAux_all_empty cfg L R s s v 0 hall, ih v hwit,
        except_bind_ok, except_bind_error]

/-- Claim C6 (confirmed): when the configuration was never populated
with `lower_threshold` (no explicit entry, and the keyword override
absent — only non-`None` keyword values are copied in), consuming the
context-extraction generator over a corpus containing at least one
focus token raises `KeyError` at the direct access
`config['lower_threshold']`; the failure comes from context extraction,
not from construction-time validation: the same constructor call with a
supplied matrix (which skips the corpus) succeeds. -/
theorem claim_c6 {S : Type} (mk : Nat → S) (ch : S → Nat → Nat → List Nat × S)
    (hashFn : String → Nat) (s0 : S) (corpus : List (List Tok)) (l r : Nat)
    (cfg0 : Option Config) (ht : Option Nat) (d0 n0 : Nat)
    (vocab? : Option Vocab) (ord dir : Option Bool)
    (hlt : (cfg0.getD Config.empty).lower_threshold = none)
    (hne : ∃ s ∈ corpus, ∃ e ∈ s, tokensOf e ≠ []) :
    (∀ (v : Vocab) (cfg : Config), cfg.lower_threshold = none →
      vocabularize cfg l r v corpus =
        Except.error (PyErr.keyError ("lower_threshold"))) ∧
    riInitCall mk ch hashFn s0 corpus [l, r] cfg0 none ht (some d0) (some n0)
        vocab? none ord dir =
      Except.error (PyErr.keyError ("lower_threshold")) ∧
    (∀ m, ∃ st, riInitCall mk ch hashFn s0 corpus [l, r] cfg0 none ht (some d0)
        (some n0) vocab? (some m) ord dir = Except.ok st) := by
  have hmain : ∀ (v : Vocab) (cfg : Config), cfg.lower_threshold = none →
      vocabularize cfg l r v corpus =
        Except.error (PyErr.keyError ("lower_threshold")) :=
    fun v cfg hc => vocabularize_no_lt cfg hc l r corpus v hne
  refine ⟨hmain, ?_, ?_⟩
  · have hcfglt : ((match cfg0 with | some c => c | none => Config.empty).applyKw
        ⟨none, ht, some d0, some n0, ord, dir⟩).lower_threshold = none := by
      cases cfg0 with
      | none => simp [Config.applyKw, Config.empty]
      | some c =>
        simp [Config.applyKw]
        simpa [Option.getD] using hlt
    have hdim : ((match cfg0 with | some c => c | none => Config.empty).applyKw
        ⟨none, ht, some d0, some n0, ord, dir⟩).dimensionality = some d0 := rfl
    have hnum : ((match cfg0 with | some c => c | none => Config.empty).applyKw
        ⟨none, ht, some d0, some n0, ord, dir⟩).num_indices = some n0 := rfl
    simp only [riInitCall, dsmInitCall, dsmInitBody, riBuildFull]
    rw [if_neg (by simp)]
    rw [hdim, hnum]
    simp only [List.getD_cons_zero, List.getD_cons_succ]
    rw [hmain _ _ hcfglt]
    rfl
  · intro m
    exact ⟨_, rfl⟩

/-- Witness for C6: the default-configured random-indexing constructor
call (`lower_threshold=None`, so the key is never populated) over the
one-token corpus `[["a"]]` fails with the `lower_threshold` KeyError,
as does consuming the extraction generator directly. -/
theorem claim_c6_witness :
    vocabularize Config.empty 1 1 [] [[Tok.single ("a")]] =
      Except.error (PyErr.keyError ("lower_threshold")) ∧
    riInitCall (S := Unit) (fun _ => ()) (fun s _ n => (List.replicate n 0, s))
        (fun _ => 0) () [[Tok.single ("a")]] [1, 1] none none none (some 2000)
        (some 8) none none (some false) (some false) =
      Except.error (PyErr.keyError ("lower_threshold")) := by
  have h := claim_c6 (S := Unit) (fun _ => ()) (fun s _ n => (List.replicate n 0, s))
    (fun _ => 0) () [[Tok.single ("a")]] 1 1 none none 2000 8 none
    (some false) (some false) rfl (by decide)
  exact ⟨h.1 [] Config.empty rfl, h.2.1⟩

theorem vocabFocus_error_shape (cfg : Config) (L R : Nat) (s : List Tok)
    (i : Nat) (v : Vocab) (f : String) (e : PyErr)
    (herr : vocabFocus cfg L R s i v f = Except.error e) :
    e = PyErr.keyError ("lower_threshold") := by
  cases h : cfg.lower_threshold with
  | none =>
    rw [vocabFocus_no_lt cfg h] at herr
    exact (Except.error.inj herr).symm
  | some lt => simp [vocabFocus, h] at herr

theorem vocabGroup_error_shape (cfg : Config) (L R : Nat) (s : List Tok)
    (i : Nat) :
    ∀ (g : List String) (v : Vocab) (e : PyErr),
      vocabGroup cfg L R s i v g = Except.error e →
      e = PyErr.keyError ("lower_threshold") := by
  intro g
  induction g with
  | nil => intro v e herr; simp [vocabGroup_nil] at herr
  | cons f rest ih =>
    intro v e herr
    simp only [vocabGroup] at herr
    cases hf : vocabFocus cfg L R s i v f with
    | error e' =>
      rw [hf, except_bind_error] at herr
      exact (Except.error.inj herr).symm ▸
        vocabFocus_error_shape cfg L R s i v f e' hf
    | ok a =>
      rw [hf, except_bind_ok] at herr
      cases hg : vocabGroup cfg L R s i a.1 rest with
      | error e'' =>
        rw [hg, except_bind_error] at herr
        exact (Except.error.inj herr).symm ▸ ih a.1 e'' hg
      | ok b => rw [hg, except_bind_ok] at herr; simp at herr

theorem vocabSentenceAux_error_shape (cfg : Config) (L R : Nat) (s : List Tok) :
    ∀ (rest : List Tok) (v : Vocab) (i : Nat) (e : PyErr),
      vocabSentenceAux cfg L R s v i rest = Except.error e →
      e = PyErr.keyError ("lower_threshold") := by
  intro rest
  induction rest with
  | nil => intro v i e herr; simp [vocabSentenceAux] at herr
  | cons t rest' ih =>
    intro v i e herr
    simp only [vocabSentenceAux] at herr
    cases hg : vocabGroup cfg L R s i v (tokensOf t) with
    | error e' =>
      rw [hg, except_bind_error] at herr
      exact (Except.error.inj herr).symm ▸
        vocabGroup_error_shape cfg L R s i (tokensOf t) v e' hg
    | ok a =>
      rw [hg, except_bind_ok] at herr
      cases ha : vocabSentenceAux cfg L R s a.1 (i + 1) rest' with
      | error e'' =>
        rw [ha, except_bind_error] at herr
        exact (Except.error.inj herr).symm ▸ ih a.1 (i + 1) e'' ha
      | ok b => rw [ha, except_bind_ok] at herr; simp at herr

theorem vocabularize_error_shape (cfg : Config) (L R : Nat) :
    ∀ (corpus : List (List Tok)) (v : Vocab) (e : PyErr),
      vocabularize cfg L R v corpus = Except.error e →
      e = PyErr.keyError ("lower_threshold") := by
  intro corpus
  induction corpus with
  | nil => intro v e herr; simp [vocabularize] at herr
  | cons s rest ih =>
    intro v e herr
    simp only [vocabularize, vocabularizeSentence] at herr
    cases hs : vocabSentenceAux cfg L R s v 0 s with
    | error e' =>
      rw [hs, except_bind_error] at herr
      exact (Except.error.inj herr).symm ▸
        vocabSentenceAux_error_shape cfg L R s s v 0 e' hs
    | ok a =>
      rw [hs, except_bind_ok] at herr
      cases hr : vocabularize cfg L R a.1 rest with
      | error e'' =>
        rw [hr, except_bind_error] at herr
        exact (Except.error.inj herr).symm ▸ ih a.1 e'' hr
      | ok b => rw [hr, except_bind_ok] at herr; simp at herr

/-- Whether a constructor result is an invalid-argument (`TypeError`)
failure. -/
def isTypeErrorB {α : Type} : Except PyErr α → Bool
  | Except.error (PyErr.typeError _) => true
  | _ => false

theorem riBuildFull_error_shape {S : Type} (mk : Nat → S)
    (ch : S → Nat → Nat → List Nat × S) (hashFn : String → Nat) (s0 : S)
    (cfg : Config) (ws : Nat × Nat) (v : Vocab) (corpus : List (List Tok))
    (e : PyErr) (herr : riBuildFull mk ch hashFn s0 cfg ws v corpus =
      Except.error e) :
    ∃ k, e = PyErr.keyError k := by
  simp only [riBuildFull] at herr
  cases hd : cfg.dimensionality with
  | none =>
    rw [hd] at herr
    exact ⟨_, (Except.error.inj herr).symm⟩
  | some dim =>
    rw [hd] at herr
    cases hn : cfg.num_indices with
    | none =>
      rw [hn] at herr
      exact ⟨_, (Except.error.inj herr).symm⟩
    | some n =>
      rw [hn] at herr
      cases hv : vocabularize cfg ws.1 ws.2 v corpus with
      | error e' =>
        rw [hv] at herr
        have h2 : (Except.error e' :
            Except PyErr ((List (List Int) × List String × List Nat) × Vocab)) =
            Except.error e := herr
        exact ⟨("lower_threshold"), (Except.error.inj h2).symm ▸
          vocabularize_error_shape cfg ws.1 ws.2 corpus v e' hv⟩
      | ok a =>
        rw [hv] at herr
        have h2 : (Except.ok (RandomIndexing_build mk ch hashFn dim n s0 a.2, a.1) :
            Except PyErr ((List (List Int) × List String × List Nat) × Vocab)) =
            Except.error e := herr
        simp at h2

/-- Claim C2 (code_bug): construction was claimed to fail with an
invalid-argument error exactly when the window size does not have two
elements.  That is what `RandomIndexing` does (second and third
conjuncts: any window of length 0, 1 or at least 3 raises the window
`TypeError` before any corpus traversal — the error does not depend on
the corpus — and a two-element window never produces a `TypeError`).
But `CooccurrenceDSM.__init__` forwards only four positional arguments
to `DSM.__init__`, never supplying its required positional parameter
`config`, so every `CooccurrenceDSM` construction raises `TypeError`
even with a valid two-element window (first conjunct). -/
theorem claim_c2 :
    (∀ (corpus : List (List Tok)) (window : List Nat) (matrix? : Option Colloc)
        (vocab? : Option Vocab) (lt ht : Option Nat) (ord dir : Option Bool),
      coocInitCall corpus window matrix? vocab? lt ht ord dir =
        Except.error (PyErr.typeError
          ("init missing 1 required positional argument: config"))) ∧
    (∀ {S : Type} (mk : Nat → S) (ch : S → Nat → Nat → List Nat × S)
        (hashFn : String → Nat) (s0 : S) (corpus : List (List Tok))
        (cfg0 : Option Config) (lt ht dim n : Option Nat) (vocab? : Option Vocab)
        (matrix? : Option (List (List Int) × List String × List Nat))
        (ord dir : Option Bool),
      (∀ (a b c : Nat) (w : List Nat),
        riInitCall mk ch hashFn s0 corpus (a :: b :: c :: w) cfg0 lt ht dim n
            vocab? matrix? ord dir =
          Except.error (PyErr.typeError
            ("Window size must be a tuple of length 2."))) ∧
      (riInitCall mk ch hashFn s0 corpus [] cfg0 lt ht dim n vocab? matrix?
          ord dir =
        Except.error (PyErr.typeError
          ("Window size must be a tuple of length 2."))) ∧
      (∀ (a : Nat),
        riInitCall mk ch hashFn s0 corpus [a] cfg0 lt ht dim n vocab? matrix?
            ord dir =
          Except.error (PyErr.typeError
            ("Window size must be a tuple of length 2."))) ∧
      (∀ (a b : Nat),
        isTypeErrorB (riInitCall mk ch hashFn s0 corpus [a, b] cfg0 lt ht dim n
          vocab? matrix? ord dir) = false)) := by
  refine ⟨fun _ _ _ _ _ _ _ _ => rfl, ?_⟩
  intro S mk ch hashFn s0 corpus cfg0 lt ht dim n vocab? matrix? ord dir
  refine ⟨?_, ?_, ?_, ?_⟩
  · intro a b c w
    simp [riInitCall, dsmInitCall, dsmInitBody]
  · simp [riInitCall, dsmInitCall, dsmInitBody]
  · intro a
    simp [riInitCall, dsmInitCall, dsmInitBody]
  · intro a b
    cases matrix? with
    | some m => rfl
    | none =>
      simp only [riInitCall, dsmInitCall, dsmInitBody]
      rw [if_neg (by simp)]
      cases hb : riBuildFull mk ch hashFn s0
          ((match cfg0 with | some c => c | none => Config.empty).applyKw
            ⟨lt, ht, dim, n, ord, dir⟩)
          (([a, b] : List Nat).getD 0 0, ([a, b] : List Nat).getD 1 0)
          (match vocab? with | some v => v | none => []) corpus with
      | error e =>
        obtain ⟨k, hk⟩ := riBuildFull_error_shape _ _ _ _ _ _ _ _ _ hb
        rw [hk]
        rfl
      | ok mv => rfl

theorem riInitCall_corpusAttr {S : Type} (mk : Nat → S)
    (ch : S → Nat → Nat → List Nat × S) (hashFn : String → Nat) (s0 : S)
    (corpus : List (List Tok)) (window : List Nat) (cfg0 : Option Config)
    (lt ht dim n : Option Nat) (vocab? : Option Vocab)
    (matrix? : Option (List (List Int) × List String × List Nat))
    (ord dir : Option Bool) :
    (riInitCall mk ch hashFn s0 corpus window cfg0 lt ht dim n vocab? matrix?
        ord dir).map (fun st => st.corpusAttr) =
      (riInitCall mk ch hashFn s0 corpus window cfg0 lt ht dim n vocab? matrix?
        ord dir).map (fun _ => (none : Option (List (List Tok)))) := by
  simp only [riInitCall, dsmInitCall, dsmInitBody]
  by_cases hw : window.length ≠ 2
  · rw [if_pos hw]
    rfl
  · rw [if_neg hw]
    cases matrix? with
    | some m => rfl
    | none =>
      cases hb : riBuildFull mk ch hashFn s0
          ((match cfg0 with | some c => c | none => Config.empty).applyKw
            ⟨lt, ht, dim, n, ord, dir⟩)
          (window.getD 0 0, window.getD 1 0)
          (match vocab? with | some v => v | none => []) corpus with
      | error e => rfl
      | ok mv => rfl

/-- Claim C1 (code_bug): `apply_weighting` was claimed to return a new
model of the same type built from the original corpus; in fact
`DSM.__init__` never assigns `self.corpus` (first conjunct: the
supplied-matrix constructor path yields exactly a state without a
corpus attribute; third conjunct: every successful constructor result,
matrix-built or corpus-built, carries no corpus attribute), so the
`self.corpus` read in `_new_instance` raises `AttributeError` on every
instance the constructor can produce (second conjunct), before any
re-construction can happen.  (For `CooccurrenceDSM` the constructor
cannot even produce an instance — see C2.) -/
theorem claim_c1 :
    (∀ {S : Type} (mk : Nat → S) (ch : S → Nat → Nat → List Nat × S)
        (hashFn : String → Nat) (s0 : S) (corpus : List (List Tok)) (l r : Nat)
        (cfg0 : Option Config) (lt ht dim n : Option Nat) (vocab? : Option Vocab)
        (m : List (List Int) × List String × List Nat) (ord dir : Option Bool),
      riInitCall mk ch hashFn s0 corpus [l, r] cfg0 lt ht dim n vocab? (some m)
          ord dir =
        Except.ok ⟨(l, r),
          (match cfg0 with | some c => c | none => Config.empty).applyKw
            ⟨lt, ht, dim, n, ord, dir⟩,
          (match vocab? with | some v => v | none => []), m, none⟩) ∧
    (∀ {M : Type} (ws : Nat × Nat) (cfg : Config) (voc : Vocab) (m : M)
        (reinit : List (List Tok) → Nat × Nat → M → Vocab → Config →
          Except PyErr (DSMState M))
        (wf : M → M),
      apply_weighting reinit wf ⟨ws, cfg, voc, m, none⟩ =
        Except.error (PyErr.attributeError ("corpus"))) ∧
    (∀ {S : Type} (mk : Nat → S) (ch : S → Nat → Nat → List Nat × S)
        (hashFn : String → Nat) (s0 : S) (corpus : List (List Tok))
        (window : List Nat) (cfg0 : Option Config) (lt ht dim n : Option Nat)
        (vocab? : Option Vocab)
        (matrix? : Option (List (List Int) × List String × List Nat))
        (ord dir : Option Bool),
      (riInitCall mk ch hashFn s0 corpus window cfg0 lt ht dim n vocab? matrix?
          ord dir).map (fun st => st.corpusAttr) =
        (riInitCall mk ch hashFn s0 corpus window cfg0 lt ht dim n vocab?
          matrix? ord dir).map (fun _ => (none : Option (List (List Tok))))) := by
  refine ⟨?_, ?_, ?_⟩
  · intro S mk ch hashFn s0 corpus l r cfg0 lt ht dim n vocab? m ord dir
    simp [riInitCall, dsmInitCall, dsmInitBody]
  · intro M ws cfg voc m reinit wf
    rfl
  · intro S mk ch hashFn s0 corpus window cfg0 lt ht dim n vocab? matrix? ord dir
    exact riInitCall_corpusAttr mk ch hashFn s0 corpus window cfg0 lt ht dim n
      vocab? matrix? ord dir

theorem lookupA_filter_inner (inner : List (String × Nat)) (x u : String) :
    lookupA (inner.filter (fun q => !(q.1 == x))) u =
      if u = x then none else lookupA inner u := by
  induction inner with
  | nil => by_cases h : u = x <;> simp [lookupA, h]
  | cons q rest ih =>
    obtain ⟨k, c⟩ := q
    by_cases hkx : k = x
    · subst hkx
      by_cases hu : u = k
      · subst hu
        simp [lookupA, ih]
      · have hku : ¬ k = u := fun h => hu h.symm
        simp [lookupA, ih, hku, hu]
    · by_cases hku : k = u
      · subst hku
        have hukx : ¬ k = x := hkx
        simp [lookupA, hkx, hukx]
      · simp [lookupA, hkx, hku, ih]

theorem lookupA_filter_map_outer (d : Colloc) (x w : String)
    (g : List (String × Nat) → List (String × Nat)) :
    lookupA ((d.filter (fun p => !(p.1 == x))).map (fun p => (p.1, g p.2))) w =
      if w = x then none else (lookupA d w).map g := by
  induction d with
  | nil => by_cases h : w = x <;> simp [lookupA, h]
  | cons p rest ih =>
    obtain ⟨k, inner⟩ := p
    by_cases hkx : k = x
    · subst hkx
      by_cases hw : w = k
      · subst hw
        simp [lookupA, ih]
      · have hkw : ¬ k = w := fun h => hw h.symm
        simp [lookupA, ih, hkw, hw]
    · by_cases hkw : k = w
      · subst hkw
        have hwx : ¬ k = x := hkx
        simp [lookupA, hkx, hwx]
      · simp [lookupA, hkx, hkw, ih]

theorem filterStepWord_good (lo : Nat) (hi : Option Nat) (d : Colloc)
    (x : String) (fq : Nat) (hgood : inBounds lo hi fq = true) :
    filterStepWord lo hi d (x, fq) = d := by
  simp [filterStepWord, hgood]

theorem filterStepWord_bad_def (lo : Nat) (hi : Option Nat) (d : Colloc)
    (x : String) (fq : Nat) (hbad : inBounds lo hi fq = false) :
    filterStepWord lo hi d (x, fq) =
      (d.filter (fun p => !(p.1 == x))).map
        (fun p => (p.1, p.2.filter (fun q => !(q.1 == x)))) := by
  simp [filterStepWord, hbad]

theorem filterStepWord_bad (lo : Nat) (hi : Option Nat) (d : Colloc)
    (x : String) (fq : Nat) (hbad : inBounds lo hi fq = false) (w u : String) :
    lookup2 (filterStepWord lo hi d (x, fq)) w u =
      if w = x ∨ u = x then none else lookup2 d w u := by
  rw [filterStepWord_bad_def lo hi d x fq hbad, lookup2, lookupA_filter_map_outer]
  by_cases hw : w = x
  · simp [hw]
  · simp only [hw, if_false]
    cases hl : lookupA d w with
    | none => simp [lookup2, hl]
    | some inner =>
      by_cases hu : u = x <;>
        simp [lookup2, hl, lookupA_filter_inner, hu, hw]

theorem lookup2_ftw_fold (lo : Nat) (hi : Option Nat) (vocab : Vocab) :
    ∀ (d : Colloc) (w u : String),
      lookup2 (vocab.foldl (filterStepWord lo hi) d) w u =
        if outOfBounds lo hi vocab w || outOfBounds lo hi vocab u then none
        else lookup2 d w u := by
  induction vocab with
  | nil => intro d w u; simp [outOfBounds]
  | cons xf rest ih =>
    intro d w u
    obtain ⟨x, fq⟩ := xf
    rw [List.foldl_cons, ih]
    by_cases hgood : inBounds lo hi fq = true
    · rw [filterStepWord_good lo hi d x fq hgood]
      simp only [outOfBounds, List.any_cons, hgood, Bool.not_true,
        Bool.and_false, Bool.false_or]
    · have hbad : inBounds lo hi fq = false := by
        cases h : inBounds lo hi fq
        · rfl
        · exact absurd h hgood
      rw [filterStepWord_bad lo hi d x fq hbad w u]
      simp only [outOfBounds, List.any_cons, hbad, Bool.not_false, Bool.and_true]
      by_cases hxw : x = w
      · subst hxw
        simp
      · by_cases hxu : x = u
        · subst hxu
          simp
        · have hb1 : (x == w) = false := beq_eq_false_iff_ne.mpr hxw
          have hb2 : (x == u) = false := beq_eq_false_iff_ne.mpr hxu
          have h1 : ¬ w = x := fun h => hxw h.symm
          have h2 : ¬ u = x := fun h => hxu h.symm
          simp only [hb1, hb2, Bool.false_or, h1, h2, or_self, if_false]

theorem keyMem_filterStepWord_bad (lo : Nat) (hi : Option Nat) (d : Colloc)
    (x : String) (fq : Nat) (hbad : inBounds lo hi fq = false) (w : String) :
    keyMem (filterStepWord lo hi d (x, fq)) w = (keyMem d w && !(x == w)) := by
  rw [filterStepWord_bad_def lo hi d x fq hbad, keyMem, lookupA_filter_map_outer]
  by_cases hw : w = x
  · subst hw
    simp
  · have hxw : (x == w) = false :=
      beq_eq_false_iff_ne.mpr (fun h => hw h.symm)
    cases hl : lookupA d w <;> simp [keyMem, hl, hw, hxw]

theorem keyMem_ftw_fold (lo : Nat) (hi : Option Nat) (vocab : Vocab) :
    ∀ (d : Colloc) (w : String),
      keyMem (vocab.foldl (filterStepWord lo hi) d) w =
        (keyMem d w && ! outOfBounds lo hi vocab w) := by
  induction vocab with
  | nil => intro d w; simp [outOfBounds]
  | cons xf rest ih =>
    intro d w
    obtain ⟨x, fq⟩ := xf
    rw [List.foldl_cons, ih]
    by_cases hgood : inBounds lo hi fq = true
    · rw [filterStepWord_good lo hi d x fq hgood]
      simp only [outOfBounds, List.any_cons, hgood, Bool.not_true,
        Bool.and_false, Bool.false_or]
    · have hbad : inBounds lo hi fq = false := by
        cases h : inBounds lo hi fq
        · rfl
        · exact absurd h hgood
      rw [keyMem_filterStepWord_bad lo hi d x fq hbad w]
      simp only [outOfBounds, List.any_cons, hbad, Bool.not_false, Bool.and_true]
      by_cases hxw : x = w
      · subst hxw
        simp
      · have hb1 : (x == w) = false := beq_eq_false_iff_ne.mpr hxw
        simp [hb1, Bool.and_assoc]

theorem lookupA_mem {β : Type} (v : List (String × β)) (w : String) (c : β)
    (h : lookupA v w = some c) : (w, c) ∈ v := by
  induction v with
  | nil => simp [lookupA] at h
  | cons p rest ih =>
    obtain ⟨k, b⟩ := p
    by_cases hk : k = w
    · subst hk
      simp [lookupA] at h
      simp [h]
    · simp only [lookupA, if_neg hk] at h
      exact List.mem_cons_of_mem _ (ih h)

theorem keyMem_bump (v : Vocab) (w x : String) :
    keyMem (bump v w) x = (keyMem v x || (w == x)) := by
  rw [keyMem, lookupA_bump]
  by_cases h : w = x
  · simp [h]
  · have hb : (w == x) = false := beq_eq_false_iff_ne.mpr h
    simp [keyMem, h, hb]

theorem keyMem_filterMut (lt : Nat) :
    ∀ (ws : List String) (v : Vocab) (x : String),
      keyMem v x = true → keyMem (filterMut lt v ws).2 x = true := by
  intro ws
  induction ws with
  | nil => intro v x h; exact h
  | cons w ws' ih =>
    intro v x h
    simp only [filterMut]
    cases hl : lookupA v w with
    | some c =>
      simp only [hl]
      exact ih v x h
    | none =>
      simp only [hl]
      refine ih _ x ?_
      rw [keyMem, lookupA_append]
      obtain ⟨c, hc⟩ := Option.isSome_iff_exists.mp h
      simp [hc]

theorem vocabFocus_ok (cfg : Config) (L R : Nat) (s : List Tok) (i : Nat)
    (v : Vocab) (f : String) (v' : Vocab) (pr : String × List String)
    (h : vocabFocus cfg L R s i v f = Except.ok (v', pr)) :
    pr.1 = f ∧ (∀ x, keyMem v x = true → keyMem v' x = true) ∧
      keyMem v' f = true := by
  cases hlt : cfg.lower_threshold with
  | none =>
    rw [vocabFocus_no_lt cfg hlt] at h
    simp at h
  | some lt =>
    by_cases h0 : lt = 0
    · subst h0
      simp only [vocabFocus, hlt, ne_eq, not_true_eq_false, if_false,
        reduceIte] at h
      injection h with h'
      rw [Prod.mk.injEq] at h'
      obtain ⟨hv, hp⟩ := h'
      subst hv
      refine ⟨by rw [← hp], fun x hx => ?_, ?_⟩
      · rw [keyMem_bump, hx]
        rfl
      · rw [keyMem_bump]
        simp
    · simp only [vocabFocus, hlt, ne_eq, h0, not_false_eq_true, if_true,
        reduceIte] at h
      injection h with h'
      rw [Prod.mk.injEq] at h'
      obtain ⟨hv, hp⟩ := h'
      subst hv
      refine ⟨by rw [← hp], fun x hx => ?_, ?_⟩
      · refine keyMem_filterMut lt _ _ x (keyMem_filterMut lt _ _ x ?_)
        rw [keyMem_bump, hx]
        rfl
      · refine keyMem_filterMut lt _ _ f (keyMem_filterMut lt _ _ f ?_)
        rw [keyMem_bump]
        simp

theorem vocabGroup_ok (cfg : Config) (L R : Nat) (s : List Tok) (i : Nat) :
    ∀ (g : List String) (v v' : Vocab) (pairs : List (String × List String)),
      vocabGroup cfg L R s i v g = Except.ok (v', pairs) →
      (∀ x, keyMem v x = true → keyMem v' x = true) ∧
      (∀ p ∈ pairs, keyMem v' p.1 = true) := by
  intro g
  induction g with
  | nil =>
    intro v v' pairs h
    injection h with h'
    rw [Prod.mk.injEq] at h'
    obtain ⟨hv, hp⟩ := h'
    subst hv
    subst hp
    exact ⟨fun x hx => hx, by simp⟩
  | cons f rest ih =>
    intro v v' pairs h
    simp only [vocabGroup] at h
    cases hf : vocabFocus cfg L R s i v f with
    | error e => rw [hf, except_bind_error] at h; simp at h
    | ok a =>
      rw [hf, except_bind_ok] at h
      cases hg : vocabGroup cfg L R s i a.1 rest with
      | error e => rw [hg, except_bind_error] at h; simp at h
      | ok b =>
        rw [hg, except_bind_ok] at h
        injection h with h'
        rw [Prod.mk.injEq] at h'
        obtain ⟨hv, hp⟩ := h'
        subst hv
        subst hp
        obtain ⟨hfa, hmonoA, hfm⟩ :=
          vocabFocus_ok cfg L R s i v f a.1 a.2 (by rw [hf])
        obtain ⟨hmonoB, hallB⟩ := ih a.1 b.1 b.2 (by rw [hg])
        refine ⟨fun x hx => hmonoB x (hmonoA x hx), ?_⟩
        intro p hp'
        cases hp' with
        | head => rw [hfa]; exact hmonoB f hfm
        | tail _ hmem => exact hallB p hmem

theorem vocabSentenceAux_ok (cfg : Config) (L R : Nat) (s : List Tok) :
    ∀ (rest : List Tok) (v : Vocab) (i : Nat) (v' : Vocab)
      (pairs : List (String × List String)),
      vocabSentenceAux cfg L R s v i rest = Except.ok (v', pairs) →
      (∀ x, keyMem v x = true → keyMem v' x = true) ∧
      (∀ p ∈ pairs, keyMem v' p.1 = true) := by
  intro rest
  induction rest with
  | nil =>
    intro v i v' pairs h
    injection h with h'
    rw [Prod.mk.injEq] at h'
    obtain ⟨hv, hp⟩ := h'
    subst hv
    subst hp
    exact ⟨fun x hx => hx, by simp⟩
  | cons t rest' ih =>
    intro v i v' pairs h
    simp only [vocabSentenceAux] at h
    cases hg : vocabGroup cfg L R s i v (tokensOf t) with
    | error e => rw [hg, except_bind_error] at h; simp at h
    | ok a =>
      rw [hg, except_bind_ok] at h
      cases ha : vocabSentenceAux cfg L R s a.1 (i + 1) rest' with
      | error e => rw [ha, except_bind_error] at h; simp at h
      | ok b =>
        rw [ha, except_bind_ok] at h
        injection h with h'
        rw [Prod.mk.injEq] at h'
        obtain ⟨hv, hp⟩ := h'
        subst hv
        subst hp
        obtain ⟨hmonoA, hallA⟩ :=
          vocabGroup_ok cfg L R s i (tokensOf t) v a.1 a.2 (by rw [hg])
        obtain ⟨hmonoB, hallB⟩ := ih a.1 (i + 1) b.1 b.2 (by rw [ha])
        refine ⟨fun x hx => hmonoB x (hmonoA x hx), ?_⟩
        intro p hp'
        rcases List.mem_append.mp hp' with hmem | hmem
        · exact hmonoB p.1 (hallA p hmem)
        · exact hallB p hmem

theorem vocabularize_ok_foci (cfg : Config) (L R : Nat) :
    ∀ (corpus : List (List Tok)) (v v' : Vocab)
      (pairs : List (String × List String)),
      vocabularize cfg L R v corpus = Except.ok (v', pairs) →
      (∀ x, keyMem v x = true → keyMem v' x = true) ∧
      (∀ p ∈ pairs, keyMem v' p.1 = true) := by
  intro corpus
  induction corpus with
  | nil =>
    intro v v' pairs h
    injection h with h'
    rw [Prod.mk.injEq] at h'
    obtain ⟨hv, hp⟩ := h'
    subst hv
    subst hp
    exact ⟨fun x hx => hx, by simp⟩
  | cons s rest ih =>
    intro v v' pairs h
    simp only [vocabularize, vocabularizeSentence] at h
    cases hs : vocabSentenceAux cfg L R s v 0 s with
    | error e => rw [hs, except_bind_error] at h; simp at h
    | ok a =>
      rw [hs, except_bind_ok] at h
      cases hr : vocabularize cfg L R a.1 rest with
      | error e => rw [hr, except_bind_error] at h; simp at h
      | ok b =>
        rw [hr, except_bind_ok] at h
        injection h with h'
        rw [Prod.mk.injEq] at h'
        obtain ⟨hv, hp⟩ := h'
        subst hv
        subst hp
        obtain ⟨hmonoA, hallA⟩ :=
          vocabSentenceAux_ok cfg L R s s v 0 a.1 a.2 (by rw [hs])
        obtain ⟨hmonoB, hallB⟩ := ih a.1 b.1 b.2 (by rw [hr])
        refine ⟨fun x hx => hmonoB x (hmonoA x hx), ?_⟩
        intro p hp'
        rcases List.mem_append.mp hp' with hmem | hmem
        · exact hmonoB p.1 (hallA p hmem)
        · exact hallB p hmem

/-- Claim C5 (confirmed): `_filter_threshold_words` removes exactly the
entries — at both nesting levels — of tokens whose recorded vocabulary
frequency is strictly outside `[lower_threshold, higher_threshold]`
(absent bounds defaulting to 0 and infinity), leaving in-bounds entries
with their values untouched (first conjunct, a full characterization of
the nested lookup; second conjunct, the outer keys); consequently, after
a co-occurrence build every remaining outer key (matrix row label) is a
vocabulary key whose frequency satisfies the bounds (third conjunct,
using that every emitted focus token is a key of the final
vocabulary). -/
theorem claim_c5 :
    (∀ (cfg : Config) (vocab : Vocab) (d : Colloc) (w u : String),
      lookup2 (filter_threshold_words cfg vocab d) w u =
        if outOfBounds (cfg.lower_threshold.getD 0) cfg.higher_threshold vocab w ||
            outOfBounds (cfg.lower_threshold.getD 0) cfg.higher_threshold vocab u
        then none else lookup2 d w u) ∧
    (∀ (cfg : Config) (vocab : Vocab) (d : Colloc) (w : String),
      keyMem (filter_threshold_words cfg vocab d) w =
        (keyMem d w &&
          ! outOfBounds (cfg.lower_threshold.getD 0) cfg.higher_threshold vocab w)) ∧
    (∀ (cfg : Config) (l r : Nat) (v0 : Vocab) (corpus : List (List Tok))
        (v' : Vocab) (pairs : List (String × List String)) (w : String),
      vocabularize cfg l r v0 corpus = Except.ok (v', pairs) →
      keyMem (filter_threshold_words cfg v' (CooccurrenceDSM_build pairs)) w = true →
      keyMem v' w = true ∧
        inBounds (cfg.lower_threshold.getD 0) cfg.higher_threshold (freqOf v' w) =
          true) := by
  have h1 : ∀ (cfg : Config) (vocab : Vocab) (d : Colloc) (w u : String),
      lookup2 (filter_threshold_words cfg vocab d) w u =
        if outOfBounds (cfg.lower_threshold.getD 0) cfg.higher_threshold vocab w ||
            outOfBounds (cfg.lower_threshold.getD 0) cfg.higher_threshold vocab u
        then none else lookup2 d w u :=
    fun cfg vocab d w u =>
      lookup2_ftw_fold (cfg.lower_threshold.getD 0) cfg.higher_threshold vocab d w u
  have h2 : ∀ (cfg : Config) (vocab : Vocab) (d : Colloc) (w : String),
      keyMem (filter_threshold_words cfg vocab d) w =
        (keyMem d w &&
          ! outOfBounds (cfg.lower_threshold.getD 0) cfg.higher_threshold vocab w) :=
    fun cfg vocab d w =>
      keyMem_ftw_fold (cfg.lower_threshold.getD 0) cfg.higher_threshold vocab d w
  refine ⟨h1, h2, ?_⟩
  intro cfg l r v0 corpus v' pairs w hvoc hmem
  rw [h2] at hmem
  obtain ⟨hck, hoob⟩ := Bool.and_eq_true_iff.mp hmem
  have hcooc := (keyMem_coocFold pairs [] w).symm.trans hck
  have hany : pairs.any (fun p => p.1 == w && !p.2.isEmpty) = true := by
    cases hp : pairs.any (fun p => p.1 == w && !p.2.isEmpty)
    · rw [hp] at hcooc
      simp [keyMem, lookupA] at hcooc
    · rfl
  obtain ⟨p, hpmem, hpw⟩ := List.any_eq_true.mp hany
  have hpw1 : p.1 = w := by
    obtain ⟨hb, _⟩ := Bool.and_eq_true_iff.mp hpw
    exact beq_iff_eq.mp hb
  have hkey : keyMem v' w = true := by
    have := (vocabularize_ok_foci cfg l r corpus v0 v' pairs hvoc).2 p hpmem
    rw [hpw1] at this
    exact this
  refine ⟨hkey, ?_⟩
  obtain ⟨fw, hfw⟩ := Option.isSome_iff_exists.mp hkey
  have hmemv : (w, fw) ∈ v' := lookupA_mem v' w fw hfw
  have hoobf : outOfBounds (cfg.lower_threshold.getD 0) cfg.higher_threshold v' w
      = false := by
    cases hx : outOfBounds (cfg.lower_threshold.getD 0) cfg.higher_threshold v' w
    · rfl
    · rw [hx] at hoob
      simp at hoob
  have hforall := List.any_eq_false.mp hoobf
  have hwfw := hforall (w, fw) hmemv
  rw [freqOf, hfw]
  simp only [Option.getD_some]
  cases hb : inBounds (cfg.lower_threshold.getD 0) cfg.higher_threshold fw
  · exfalso
    apply hwfw
    simp [hb]
  · rfl

/-- Witness for C5: a concrete extraction run over the two-token corpus
`[["a", "b"]]` with `lower_threshold = 0`, whose co-occurrence rows all
survive filtering as in-bounds vocabulary keys, plus a concrete
filtering of an out-of-bounds token (frequency 1 with
`lower_threshold = 2`). -/
theorem claim_c5_witness :
    (lookup2 (filter_threshold_words ⟨none, none, some 2, none, none, none⟩
        [(("a"), 1)] [(("a"), [(("a"), 1)])]) ("a") ("a") = none) ∧
    (keyMem [(("a" : String), 1), (("b"), 1)] ("a") = true ∧
      inBounds 0 none
        (freqOf [(("a" : String), 1), (("b"), 1)] ("a")) = true) := by
  constructor
  · rw [claim_c5.1]
    decide
  · exact claim_c5.2.2 ⟨none, none, some 0, none, none, none⟩ 1 1 []
      [[Tok.single ("a"), Tok.single ("b")]]
      [(("a"), 1), (("b"), 1)] [(("a"), [("b")]), (("b"), [("a")])] ("a")
      (by rfl) (by rfl)

end Pydsm
